import Mathlib

/-!
Verification of the menu plugin (grammyjs/menu): a shallow embedding of
`src/menu.ts` (current implementation) and, where a claim concerns it, of the
earlier implementation kept in the repository's history files.

Modelling conventions:
* JavaScript strings are modelled as lists of Unicode code points
  (`Str := List Nat`).  `Array.from(s).map(c => c.codePointAt(0))` — the
  `toNums` helper of the source — is then the identity, and JS string
  concatenation is list append.
* JS 32-bit integer arithmetic is modelled on `Nat` with explicit `% 2 ^ 32`:
  inside `(... ) >>> 0` the signed intermediate values of `<<` differ from the
  unsigned ones by multiples of `2 ^ 32`, which the final `>>> 0` erases, so
  the `Nat` translation is value-faithful.
* asynchronous, possibly impure evaluation of dynamic ranges is modelled by
  passing an explicit ambient world `w : W` to the range function; pure
  dynamic strings (labels, payloads, fingerprints) are functions of the
  request context only, as the specification's lifecycle section assumes.
-/

/-- A JavaScript string, as its sequence of Unicode code points. -/
abbrev Str : Type := List Nat

/-- Embed a Lean string literal as a `Str` (sequence of code points). -/
def str (s : String) : Str := s.data.map Char.toNat

/-- `'/'`, the token delimiter of the wire format. -/
def slashCp : Nat := 47

/-- `s.split("/")` of JavaScript: the (always nonempty) list of the maximal
runs of `s` between occurrences of the delimiter. -/
def splitSlash : Str → List Str
  | [] => [[]]
  | c :: cs =>
    if c = slashCp then [] :: splitSlash cs
    else
      match splitSlash cs with
      | [] => [[c]]
      | p :: ps => (c :: p) :: ps

/-- `parts.join(sep)` of JavaScript. -/
def joinSep (sep : Str) : List Str → Str
  | [] => []
  | [x] => x
  | x :: xs => x ++ sep ++ joinSep sep xs

/-- Whether `needle` is a prefix of `hay` (code-point-wise). -/
def segAt : Str → Str → Bool
  | [], _ => true
  | _ :: _, [] => false
  | a :: as, b :: bs => a = b && segAt as bs

/-- Whether `needle` occurs contiguously somewhere in `hay`. -/
def containsSeg (needle : Str) : Str → Bool
  | [] => segAt needle []
  | b :: bs => segAt needle (b :: bs) || containsSeg needle bs

theorem splitSlash_ne_nil (s : Str) : splitSlash s ≠ [] := by
  induction s with
  | nil => simp [splitSlash]
  | cons c cs ih =>
    simp only [splitSlash]
    split
    · simp
    · match h : splitSlash cs with
      | [] => simp
      | p :: ps => simp

/-- Splitting after a delimiter-free chunk followed by a delimiter
peels off exactly that chunk. -/
theorem splitSlash_append (s t : Str) (hs : slashCp ∉ s) :
    splitSlash (s ++ slashCp :: t) = s :: splitSlash t := by
  induction s with
  | nil => simp [splitSlash]
  | cons c cs ih =>
    simp only [List.mem_cons, not_or] at hs
    simp only [List.cons_append, splitSlash, List.append_eq]
    rw [if_neg (fun h => hs.1 h.symm)]
    rw [ih hs.2]

/-- Splitting a delimiter-free string yields that one chunk. -/
theorem splitSlash_no_slash (s : Str) (hs : slashCp ∉ s) :
    splitSlash s = [s] := by
  induction s with
  | nil => simp [splitSlash]
  | cons c cs ih =>
    simp only [List.mem_cons, not_or] at hs
    simp only [splitSlash]
    rw [if_neg (fun h => hs.1 h.symm), ih hs.2]

/-- `join("/")` is a left inverse of `split("/")`. -/
theorem joinSep_splitSlash (s : Str) :
    joinSep [slashCp] (splitSlash s) = s := by
  induction s with
  | nil => simp [splitSlash, joinSep]
  | cons c cs ih =>
    simp only [splitSlash]
    split
    · rename_i h
      subst h
      match h2 : splitSlash cs with
      | [] => exact absurd h2 (splitSlash_ne_nil cs)
      | p :: ps =>
        rw [h2] at ih
        simp only [joinSep]
        match ps with
        | [] => simpa using ih
        | q :: qs => simpa using ih
    · match h2 : splitSlash cs with
      | [] => exact absurd h2 (splitSlash_ne_nil cs)
      | p :: ps =>
        rw [h2] at ih
        match ps with
        | [] => simpa [joinSep] using ih
        | q :: qs => simpa [joinSep] using ih

/-! ### Number formatting and parsing (`Number.prototype.toString(base)`, `parseInt`) -/

/-- The code point of the digit character for `v < 16`: `0`–`9`, then `a`–`f`
(JavaScript `Number.prototype.toString(16)` uses lowercase). -/
def digitCp (v : Nat) : Nat := if v < 10 then 48 + v else 87 + v

/-- Digits of `n` in base `b`, most significant first, via bounded fuel
(structural recursion so that concrete tokens evaluate in the kernel).
`fuel > n` always suffices. -/
def toBaseAux (b : Nat) : Nat → Nat → Str
  | 0, _ => []
  | fuel + 1, n =>
    if n < b then [digitCp n]
    else toBaseAux b fuel (n / b) ++ [digitCp (n % b)]

/-- `n.toString(16)` of JavaScript, for natural `n`. -/
def toHex (n : Nat) : Str := toBaseAux 16 (n + 1) n

/-- `n.toString(10)` of JavaScript, for natural `n`. -/
def toDec (n : Nat) : Str := toBaseAux 10 (n + 1) n

/-- Value of a hexadecimal digit code point (`0-9`, `a-f`, `A-F`), as
`parseInt(·, 16)` accepts them. -/
def hexVal (c : Nat) : Option Nat :=
  if 48 ≤ c ∧ c ≤ 57 then some (c - 48)
  else if 97 ≤ c ∧ c ≤ 102 then some (c - 87)
  else if 65 ≤ c ∧ c ≤ 70 then some (c - 55)
  else none

/-- Accumulate the value of a maximal leading run of hex digits. -/
def hexAcc (acc : Nat) : Str → Nat
  | [] => acc
  | c :: cs =>
    match hexVal c with
    | some v => hexAcc (16 * acc + v) cs
    | none => acc

/-- The natural-number core of `parseInt(s, 16)`: `none` when the first code
point is not a hex digit (JavaScript's `NaN`), otherwise the value of the
maximal leading digit run.  (Leading whitespace and a `0x` prefix, which
`parseInt` would also accept, are not modelled: no token in any claim
contains them.) -/
def parseHexNat (s : Str) : Option Nat :=
  match s with
  | [] => none
  | c :: _ => if (hexVal c).isSome then some (hexAcc 0 s) else none

/-- `parseInt(s, 16)` with an optional leading minus sign; `none` is `NaN`. -/
def parseIntHex (s : Str) : Option Int :=
  match s with
  | [] => none
  | c :: rest =>
    if c = 45 then (parseHexNat rest).map (fun n => -(n : Int))
    else (parseHexNat (c :: rest)).map (fun n => (n : Int))

/-- `x < bound` where `x` may be `NaN` (`none`): any comparison with `NaN` is
false in JavaScript. -/
def ltNaN (x : Option Int) (bound : Int) : Bool :=
  match x with
  | none => false
  | some v => v < bound

/-- `x >= bound` where `x` may be `NaN` (`none`). -/
def geNaN (x : Option Int) (bound : Nat) : Bool :=
  match x with
  | none => false
  | some v => (bound : Int) ≤ v

theorem hexVal_digitCp (v : Nat) (hv : v < 16) : hexVal (digitCp v) = some v := by
  interval_cases v <;> rfl

theorem digitCp_ne_slash (v : Nat) (hv : v < 16) : digitCp v ≠ slashCp := by
  interval_cases v <;> decide

/-- All code points emitted by `toBaseAux` (base 16) are hex digits. -/
theorem toBaseAux_hex (fuel n : Nat) (h : n < fuel) :
    ∀ c ∈ toBaseAux 16 fuel n, (hexVal c).isSome := by
  induction fuel generalizing n with
  | zero => omega
  | succ fuel ih =>
    intro c hc
    simp only [toBaseAux] at hc
    split at hc
    · rename_i hn
      simp only [List.mem_singleton] at hc
      subst hc
      rw [hexVal_digitCp n hn]
      rfl
    · rename_i hn
      rcases List.mem_append.1 hc with h1 | h1
      · exact ih (n / 16) (by omega) c h1
      · simp only [List.mem_singleton] at h1
        subst h1
        rw [hexVal_digitCp _ (Nat.mod_lt n (by omega))]
        rfl

theorem hexAcc_append (s : Str) (hs : ∀ c ∈ s, (hexVal c).isSome) (acc v : Nat)
    (hv : v < 16) :
    hexAcc acc (s ++ [digitCp v]) = 16 * hexAcc acc s + v := by
  induction s generalizing acc with
  | nil => simp [hexAcc, hexVal_digitCp v hv]
  | cons c cs ih =>
    have hc : (hexVal c).isSome := hs c (List.mem_cons_self c cs)
    match hval : hexVal c with
    | none => rw [hval] at hc; simp at hc
    | some w =>
      simp only [List.cons_append, hexAcc, hval]
      exact ih (fun d hd => hs d (List.mem_cons_of_mem c hd)) _

theorem hexAcc_toBaseAux (fuel n acc : Nat) (h : n < fuel) :
    hexAcc acc (toBaseAux 16 fuel n) = acc * 16 ^ (toBaseAux 16 fuel n).length + n := by
  induction fuel generalizing n acc with
  | zero => omega
  | succ fuel ih =>
    simp only [toBaseAux]
    split
    · rename_i hn
      simp [hexAcc, hexVal_digitCp n hn, Nat.mul_comm]
    · rename_i hn
      rw [hexAcc_append _ (toBaseAux_hex fuel (n / 16) (by omega)) _ _
        (Nat.mod_lt n (by omega))]
      rw [ih (n / 16) acc (by omega)]
      rw [List.length_append, List.length_singleton, pow_succ]
      have := Nat.div_add_mod n 16
      ring_nf
      omega

theorem toBaseAux_ne_nil (fuel n : Nat) (h : n < fuel) :
    toBaseAux 16 fuel n ≠ [] := by
  match fuel with
  | fuel + 1 =>
    simp only [toBaseAux]
    split
    · simp
    · simp

/-- `parseInt(·, 16)` recovers what `toString(16)` printed. -/
theorem parseHexNat_toHex (n : Nat) : parseHexNat (toHex n) = some n := by
  unfold toHex
  match h : toBaseAux 16 (n + 1) n with
  | [] => exact absurd h (toBaseAux_ne_nil _ _ (by omega))
  | c :: cs =>
    have hdig : (hexVal c).isSome := by
      apply toBaseAux_hex (n + 1) n (by omega)
      rw [h]; exact List.mem_cons_self c cs
    simp only [parseHexNat, hdig, if_pos]
    have := hexAcc_toBaseAux (n + 1) n 0 (by omega)
    rw [h] at this
    rw [this]
    simp

theorem parseIntHex_toHex (n : Nat) : parseIntHex (toHex n) = some (n : Int) := by
  match h : toHex n with
  | [] => exact absurd h (toBaseAux_ne_nil _ _ (by omega))
  | c :: cs =>
    have hc : c ≠ 45 := by
      intro hc45
      have : (hexVal c).isSome := by
        apply toBaseAux_hex (n + 1) n (by omega)
        rw [show toBaseAux 16 (n + 1) n = toHex n from rfl, h]
        exact List.mem_cons_self _ _
      rw [hc45] at this
      simp [hexVal] at this
    have := parseHexNat_toHex n
    rw [h] at this
    simp only [parseIntHex, if_neg hc, this, Option.map_some, Option.bind_some]
    rfl

/-- `toString(16)` never emits the delimiter. -/
theorem slash_not_mem_toHex (n : Nat) : slashCp ∉ toHex n := by
  intro hmem
  have := toBaseAux_hex (n + 1) n (by omega) slashCp hmem
  simp [hexVal, slashCp] at this

/-! ### `TextDecoder` (WHATWG UTF-8 decode with replacement) and `tinyHash` -/

/-- U+FFFD, the replacement character emitted for invalid byte sequences. -/
def replCp : Nat := 0xFFFD

/-- Whether a continuation byte lies in the allowed window. -/
def contIn (lo hi b : Nat) : Bool := lo ≤ b && b ≤ hi

/-- Lower continuation bound after a three-byte lead (WHATWG: `0xE0` tightens
it to `0xA0`). -/
def lo3 (b : Nat) : Nat := if b = 0xE0 then 0xA0 else 0x80

/-- Upper continuation bound after a three-byte lead (WHATWG: `0xED` tightens
it to `0x9F`, excluding surrogates). -/
def hi3 (b : Nat) : Nat := if b = 0xED then 0x9F else 0xBF

/-- Lower continuation bound after a four-byte lead (`0xF0` tightens it to
`0x90`, excluding overlong forms). -/
def lo4 (b : Nat) : Nat := if b = 0xF0 then 0x90 else 0x80

/-- Upper continuation bound after a four-byte lead (`0xF4` tightens it to
`0x8F`, excluding values beyond U+10FFFF). -/
def hi4 (b : Nat) : Nat := if b = 0xF4 then 0x8F else 0xBF

/-- WHATWG UTF-8 decoding with replacement, as `new TextDecoder().decode`
performs it: each step consumes one maximal (possibly invalid) subpart and
emits exactly one code point; an invalid or truncated sequence emits U+FFFD
and restarts at the offending byte. -/
def utf8Decode : List Nat → List Nat
  | [] => []
  | b :: bs =>
    if b < 0x80 then b :: utf8Decode bs
    else if b < 0xC2 then replCp :: utf8Decode bs
    else if b < 0xE0 then
      match bs with
      | [] => [replCp]
      | b1 :: r1 =>
        if contIn 0x80 0xBF b1 then ((b - 0xC0) * 0x40 + (b1 - 0x80)) :: utf8Decode r1
        else replCp :: utf8Decode (b1 :: r1)
    else if b < 0xF0 then
      match bs with
      | [] => [replCp]
      | b1 :: r1 =>
        if contIn (lo3 b) (hi3 b) b1 then
          match r1 with
          | [] => [replCp]
          | b2 :: r2 =>
            if contIn 0x80 0xBF b2 then
              ((b - 0xE0) * 0x1000 + (b1 - 0x80) * 0x40 + (b2 - 0x80)) :: utf8Decode r2
            else replCp :: utf8Decode (b2 :: r2)
        else replCp :: utf8Decode (b1 :: r1)
    else if b < 0xF5 then
      match bs with
      | [] => [replCp]
      | b1 :: r1 =>
        if contIn (lo4 b) (hi4 b) b1 then
          match r1 with
          | [] => [replCp]
          | b2 :: r2 =>
            if contIn 0x80 0xBF b2 then
              match r2 with
              | [] => [replCp]
              | b3 :: r3 =>
                if contIn 0x80 0xBF b3 then
                  ((b - 0xF0) * 0x40000 + (b1 - 0x80) * 0x1000 +
                    (b2 - 0x80) * 0x40 + (b3 - 0x80)) :: utf8Decode r3
                else replCp :: utf8Decode (b3 :: r3)
            else replCp :: utf8Decode (b2 :: r2)
        else replCp :: utf8Decode (b1 :: r1)
    else replCp :: utf8Decode bs

/-- Each decode step emits exactly one code point and consumes at least one
and at most four bytes: the decoded length is bounded by the byte count and,
for nonempty input, is at least one. -/
theorem utf8Decode_len : ∀ (bs : List Nat),
    (utf8Decode bs).length ≤ bs.length ∧ (bs ≠ [] → 1 ≤ (utf8Decode bs).length)
  | [] => by simp [utf8Decode]
  | b :: rest => by
    unfold utf8Decode
    split
    · have h := (utf8Decode_len rest).1
      constructor
      · simp only [List.length_cons]; omega
      · intro _; simp
    · split
      · have h := (utf8Decode_len rest).1
        constructor
        · simp only [List.length_cons]; omega
        · intro _; simp
      · split
        · match rest with
          | [] => simp
          | b1 :: r1 =>
            simp only []
            split
            · have h := (utf8Decode_len r1).1
              constructor
              · simp only [List.length_cons]; omega
              · intro _; simp
            · have h := (utf8Decode_len (b1 :: r1)).1
              constructor
              · simp only [List.length_cons] at h ⊢; omega
              · intro _; simp
        · split
          · match rest with
            | [] => simp
            | b1 :: r1 =>
              simp only []
              split
              · match r1 with
                | [] => simp
                | b2 :: r2 =>
                  simp only []
                  split
                  · have h := (utf8Decode_len r2).1
                    constructor
                    · simp only [List.length_cons]; omega
                    · intro _; simp
                  · have h := (utf8Decode_len (b2 :: r2)).1
                    constructor
                    · simp only [List.length_cons] at h ⊢; omega
                    · intro _; simp
              · have h := (utf8Decode_len (b1 :: r1)).1
                constructor
                · simp only [List.length_cons] at h ⊢; omega
                · intro _; simp
          · split
            · match rest with
              | [] => simp
              | b1 :: r1 =>
                simp only []
                split
                · match r1 with
                  | [] => simp
                  | b2 :: r2 =>
                    simp only []
                    split
                    · match r2 with
                      | [] => simp
                      | b3 :: r3 =>
                        simp only []
                        split
                        · have h := (utf8Decode_len r3).1
                          constructor
                          · simp only [List.length_cons]; omega
                          · intro _; simp
                        · have h := (utf8Decode_len (b3 :: r3)).1
                          constructor
                          · simp only [List.length_cons] at h ⊢; omega
                          · intro _; simp
                    · have h := (utf8Decode_len (b2 :: r2)).1
                      constructor
                      · simp only [List.length_cons] at h ⊢; omega
                      · intro _; simp
                · have h := (utf8Decode_len (b1 :: r1)).1
                  constructor
                  · simp only [List.length_cons] at h ⊢; omega
                  · intro _; simp
            · have h := (utf8Decode_len rest).1
              constructor
              · simp only [List.length_cons]; omega
              · intro _; simp

/-- The 32-bit rolling hash value of `tinyHash`:
`hash = ((hash << 5) + (hash << 2) + hash + n) >>> 0`, seeded with 17.
The shifts are multiplications modulo `2 ^ 32` (the signed reading of `<<`
differs only by multiples of `2 ^ 32`, erased by `>>> 0`). -/
def tinyHashVal (nums : List Nat) : Nat :=
  nums.foldl (fun hash n => ((hash <<< 5) + (hash <<< 2) + hash + n) % 2 ^ 32) 17

/-- The four bytes `[hash >>> 24, (hash >> 16) & 0xff, (hash >> 8) & 0xff,
hash & 0xff]` of the final hash value. -/
def tinyHashBytes (nums : List Nat) : List Nat :=
  let hash := tinyHashVal nums
  [hash >>> 24, (hash >>> 16) &&& 0xff, (hash >>> 8) &&& 0xff, hash &&& 0xff]

/-- `tinyHash` of the source: the hash bytes reinterpreted as a string via
`new TextDecoder().decode` (UTF-8 with replacement). -/
def tinyHash (nums : List Nat) : Str := utf8Decode (tinyHashBytes nums)

theorem tinyHashVal_lt (nums : List Nat) : tinyHashVal nums < 2 ^ 32 := by
  unfold tinyHashVal
  induction nums using List.reverseRecOn with
  | nil => simp
  | append_singleton xs x _ =>
    rw [List.foldl_append]
    exact Nat.mod_lt _ (by norm_num)

theorem tinyHashBytes_length (nums : List Nat) : (tinyHashBytes nums).length = 4 := rfl

/-! ### The renderer (`createRenderer` and its inner `layout` function)

A `Rng C W Btn` is the ordered operation list of a `MenuRange`
(`this[ops] : MaybeDynamicRange[]`), with the list structure fused into the
inductive so that dynamic ranges (functions returning further ranges) stay
strictly positive.  A dynamic operation receives the request context and the
ambient world and yields either a raw block (`MenuButton[][]`) or a nested
range, exactly as `MaybeRawRange` does in the source. -/

mutual
inductive Rng (C W Btn : Type) : Type where
  | nil : Rng C W Btn
  | blockCons (bl : List (List Btn)) (rest : Rng C W Btn) : Rng C W Btn
  | dynCons (f : C → W → DynOut C W Btn) (rest : Rng C W Btn) : Rng C W Btn
inductive DynOut (C W Btn : Type) : Type where
  | raw (bl : List (List Btn)) : DynOut C W Btn
  | sub (r : Rng C W Btn) : DynOut C W Btn
end

/-- Append of operation lists: `MenuRange.append` replays the appended
range's operations onto the receiver. -/
def Rng.appendOps {C W Btn : Type} : Rng C W Btn → Rng C W Btn → Rng C W Btn
  | .nil, r2 => r2
  | .blockCons bl rest, r2 => .blockCons bl (rest.appendOps r2)
  | .dynCons f rest, r2 => .dynCons f (rest.appendOps r2)

/-- `addRange([btns])` of `MenuRange.add`: one literal block holding a single
row, appended at the end of the operation list. -/
def Rng.add {C W Btn : Type} (r : Rng C W Btn) (btns : List Btn) : Rng C W Btn :=
  r.appendOps (.blockCons [btns] .nil)

/-- `MenuRange.row()`: `addRange([[], []])`, a literal block of two empty
rows. -/
def Rng.rowOp {C W Btn : Type} (r : Rng C W Btn) : Rng C W Btn :=
  r.appendOps (.blockCons [[], []] .nil)

/-- The inner per-row loop of `layout`: transform the buttons of one block
row, passing the row index `i` and the running column index (`j`, starting
from `j0 = k[i].length`). -/
def transformRow {Btn B : Type} (tr : Btn → Nat → Nat → B) (i j0 : Nat) :
    List Btn → List B
  | [] => []
  | b :: bs => tr b i j0 :: transformRow tr i (j0 + 1) bs

/-- The raw-block part of `layout` (menu.ts, `createRenderer`): the block's
first row is appended to the current (last) row of the accumulator `k`; each
subsequent row first pushes a new row.  `k` is never empty at the call sites
(the reduction starts from `[[]]` and every step preserves nonemptiness), so
`getLastD`/`dropLast` render `k[k.length - 1]` faithfully. -/
def layoutBlock {Btn B : Type} (tr : Btn → Nat → Nat → B)
    (k : List (List B)) (bl : List (List Btn)) : List (List B) :=
  match bl with
  | [] => k
  | r0 :: rs =>
    let k1 := k.dropLast ++
      [k.getLastD [] ++ transformRow tr (k.length - 1) (k.getLastD []).length r0]
    rs.foldl (fun k2 r => k2 ++ [transformRow tr k2.length 0 r]) k1

mutual
/-- `ops.reduce(layout, …)`: fold the operations of a range onto the
accumulator, strictly in order. -/
def renderRng {C W Btn B : Type} (ctx : C) (w : W) (tr : Btn → Nat → Nat → B) :
    Rng C W Btn → List (List B) → List (List B)
  | .nil, k => k
  | .blockCons bl rest, k => renderRng ctx w tr rest (layoutBlock tr k bl)
  | .dynCons f rest, k => renderRng ctx w tr rest (renderDyn ctx w tr (f ctx w) k)
/-- One dynamic operation's result replayed onto the accumulator: a nested
range re-enters the reduction on the same accumulator, a raw block is laid
out directly. -/
def renderDyn {C W Btn B : Type} (ctx : C) (w : W) (tr : Btn → Nat → Nat → B) :
    DynOut C W Btn → List (List B) → List (List B)
  | .raw bl, k => layoutBlock tr k bl
  | .sub r, k => renderRng ctx w tr r k
end

/-- The rendering function returned by `createRenderer`: reduce the operation
list starting from a single empty row. -/
def renderOps {C W Btn B : Type} (ctx : C) (w : W) (tr : Btn → Nat → Nat → B)
    (r : Rng C W Btn) : List (List B) :=
  renderRng ctx w tr r [[]]

/-- Entry of a two-dimensional array at `(r, c)`. -/
def gridGet {B : Type} (g : List (List B)) (r c : Nat) : Option B :=
  (g[r]?).bind (fun row => row[c]?)

/-- Map a function over every entry of a grid. -/
def mapGrid {A B : Type} (f : A → B) (g : List (List A)) : List (List B) :=
  g.map (List.map f)

/-! ### Structural lemmas about the renderer -/

theorem layoutBlock_ne_nil {Btn B : Type} (tr : Btn → Nat → Nat → B)
    (k : List (List B)) (bl : List (List Btn)) (hk : k ≠ []) :
    layoutBlock tr k bl ≠ [] := by
  match bl with
  | [] => exact hk
  | r0 :: rs =>
    simp only [layoutBlock]
    induction rs using List.reverseRecOn with
    | nil => simp
    | append_singleton xs x _ => simp [List.foldl_append]

mutual
/-- A property closed under `layoutBlock` is preserved by the whole
reduction. -/
theorem renderRng_preserves {C W Btn B : Type} {P : List (List B) → Prop}
    (ctx : C) (w : W) (tr : Btn → Nat → Nat → B)
    (hP : ∀ k bl, P k → P (layoutBlock tr k bl)) :
    ∀ (r : Rng C W Btn) (k : List (List B)), P k → P (renderRng ctx w tr r k)
  | .nil, k, hk => hk
  | .blockCons bl rest, k, hk =>
    renderRng_preserves ctx w tr hP rest _ (hP k bl hk)
  | .dynCons f rest, k, hk =>
    renderRng_preserves ctx w tr hP rest _ (renderDyn_preserves ctx w tr hP (f ctx w) k hk)
theorem renderDyn_preserves {C W Btn B : Type} {P : List (List B) → Prop}
    (ctx : C) (w : W) (tr : Btn → Nat → Nat → B)
    (hP : ∀ k bl, P k → P (layoutBlock tr k bl)) :
    ∀ (d : DynOut C W Btn) (k : List (List B)), P k → P (renderDyn ctx w tr d k)
  | .raw bl, k, hk => hP k bl hk
  | .sub r, k, hk => renderRng_preserves ctx w tr hP r k hk
end

theorem renderRng_ne_nil {C W Btn B : Type} (ctx : C) (w : W)
    (tr : Btn → Nat → Nat → B) (r : Rng C W Btn) (k : List (List B)) (hk : k ≠ []) :
    renderRng ctx w tr r k ≠ [] :=
  renderRng_preserves ctx w tr (fun k bl hk => layoutBlock_ne_nil tr k bl hk) r k hk

/-- Reducing an appended operation list continues on the accumulator produced
by the first part (`MenuRange.append` replays operations). -/
theorem renderRng_appendOps {C W Btn B : Type} (ctx : C) (w : W)
    (tr : Btn → Nat → Nat → B) (b : Rng C W Btn) :
    ∀ (a : Rng C W Btn) (k : List (List B)),
      renderRng ctx w tr (a.appendOps b) k = renderRng ctx w tr b (renderRng ctx w tr a k)
  | .nil, k => rfl
  | .blockCons bl rest, k => by
    simp only [Rng.appendOps, renderRng]
    exact renderRng_appendOps ctx w tr b rest _
  | .dynCons f rest, k => by
    simp only [Rng.appendOps, renderRng]
    exact renderRng_appendOps ctx w tr b rest _

theorem transformRow_length {Btn B : Type} (tr : Btn → Nat → Nat → B) (i : Nat) :
    ∀ (j0 : Nat) (l : List Btn), (transformRow tr i j0 l).length = l.length := by
  intro j0 l
  induction l generalizing j0 with
  | nil => rfl
  | cons b bs ih => simp [transformRow, ih]

theorem transformRow_getElem? {Btn B : Type} (tr : Btn → Nat → Nat → B) (i : Nat) :
    ∀ (j0 t : Nat) (l : List Btn),
      (transformRow tr i j0 l)[t]? = (l[t]?).map (fun b => tr b i (j0 + t)) := by
  intro j0 t l
  induction l generalizing j0 t with
  | nil => simp [transformRow]
  | cons b bs ih =>
    match t with
    | 0 => simp [transformRow]
    | t + 1 =>
      simp only [transformRow, List.getElem?_cons_succ, ih (j0 + 1) t]
      have harith : j0 + 1 + t = j0 + (t + 1) := by omega
      rw [harith]

theorem transformRow_map {Btn A B : Type} (tr : Btn → Nat → Nat → A) (g : A → B)
    (i : Nat) : ∀ (j0 : Nat) (l : List Btn),
      (transformRow tr i j0 l).map g = transformRow (fun b i j => g (tr b i j)) i j0 l := by
  intro j0 l
  induction l generalizing j0 with
  | nil => rfl
  | cons b bs ih => simp [transformRow, ih]

/-- `row()` reduces on a nonempty accumulator to pushing one fresh empty
row: the block's first (empty) row extends the current row by nothing, the
second (empty) row is pushed. -/
theorem layoutBlock_row {Btn B : Type} (tr : Btn → Nat → Nat → B)
    (k : List (List B)) (hk : k ≠ []) :
    layoutBlock tr k [[], []] = k ++ [[]] := by
  simp only [layoutBlock, transformRow, List.foldl_cons, List.foldl_nil,
    List.append_nil]
  rw [List.getLastD_eq_getLast? _ k, List.getLast?_eq_getLast k hk]
  simp only [Option.getD_some]
  rw [List.dropLast_append_getLast hk]

/-- A one-row literal block (`add`) appends its transformed buttons to the
current row. -/
theorem layoutBlock_single {Btn B : Type} (tr : Btn → Nat → Nat → B)
    (k : List (List B)) (btns : List Btn) :
    layoutBlock tr k [btns] =
      k.dropLast ++
        [k.getLastD [] ++ transformRow tr (k.length - 1) (k.getLastD []).length btns] := rfl

/-- Position-correctness of an instrumented grid: every stored coordinate
pair equals the entry's actual position. -/
def PosOK {Btn : Type} (k : List (List (Btn × Nat × Nat))) : Prop :=
  ∀ r c b i j, gridGet k r c = some (b, i, j) → i = r ∧ j = c

/-- The instrumenting button transform: record the indices the renderer
passes to the button transformer. -/
def tupleTr {Btn : Type} (b : Btn) (i j : Nat) : Btn × Nat × Nat := (b, i, j)

theorem posOK_append_row {Btn : Type} (k : List (List (Btn × Nat × Nat)))
    (hk : PosOK k) (row : List Btn) :
    PosOK (k ++ [transformRow tupleTr k.length 0 row]) := by
  intro r c b i j hget
  unfold gridGet at hget
  by_cases hr : r < k.length
  · rw [List.getElem?_append_left hr] at hget
    exact hk r c b i j hget
  · rw [List.getElem?_append_right (by omega)] at hget
    match hrr : r - k.length with
    | 0 =>
      rw [hrr] at hget
      simp only [List.getElem?_cons_zero, Option.some_bind] at hget
      rw [transformRow_getElem?] at hget
      match hl : row[c]? with
      | none => rw [hl] at hget; simp at hget
      | some bb =>
        rw [hl] at hget
        simp only [Option.map_some, Option.some.injEq, tupleTr] at hget
        cases hget
        constructor <;> omega
    | rr + 1 =>
      rw [hrr] at hget
      simp at hget

theorem posOK_first_row {Btn : Type} (k : List (List (Btn × Nat × Nat)))
    (hk : PosOK k) (r0 : List Btn) :
    PosOK (k.dropLast ++
      [k.getLastD [] ++ transformRow tupleTr (k.length - 1) (k.getLastD []).length r0]) := by
  intro r c b i j hget
  unfold gridGet at hget
  by_cases hr : r < k.length - 1
  · rw [List.getElem?_append_left (by simpa [List.length_dropLast] using hr)] at hget
    rw [List.getElem?_dropLast, if_pos hr] at hget
    exact hk r c b i j hget
  · rw [List.getElem?_append_right (by simp [List.length_dropLast]; omega)] at hget
    rw [List.length_dropLast] at hget
    match hrr : r - (k.length - 1) with
    | 0 =>
      rw [hrr] at hget
      simp only [List.getElem?_cons_zero, Option.some_bind] at hget
      by_cases hc : c < (k.getLastD []).length
      · rw [List.getElem?_append_left hc] at hget
        match hkk : k with
        | [] => simp [List.getLastD] at hget
        | kh :: kt =>
          have hlast : (kh :: kt).getLastD [] = (kh :: kt).getLast (by simp) := by
            rw [List.getLastD_eq_getLast? _ _, List.getLast?_eq_getLast _ (by simp)]
            rfl
          have hgl : (kh :: kt)[(kh :: kt).length - 1]? =
              some ((kh :: kt).getLastD []) := by
            rw [hlast, List.getLast_eq_getElem, List.getElem?_eq_getElem]
          have := hk ((kh :: kt).length - 1) c b i j (by
            unfold gridGet
            rw [hgl]
            simpa using hget)
          omega
      · rw [List.getElem?_append_right (by omega)] at hget
        rw [transformRow_getElem?] at hget
        match hl : r0[c - (k.getLastD []).length]? with
        | none => rw [hl] at hget; simp at hget
        | some bb =>
          rw [hl] at hget
          simp only [Option.map_some, Option.some.injEq, tupleTr] at hget
          cases hget
          constructor <;> omega
    | rr + 1 =>
      rw [hrr] at hget
      simp at hget

theorem posOK_foldl_rows {Btn : Type} (rs : List (List Btn)) :
    ∀ (k2 : List (List (Btn × Nat × Nat))), PosOK k2 →
      PosOK (rs.foldl (fun k2 r => k2 ++ [transformRow tupleTr k2.length 0 r]) k2) := by
  induction rs with
  | nil => intro k2 h; exact h
  | cons r rs ih =>
    intro k2 h
    exact ih _ (posOK_append_row k2 h r)

/-- `layout` preserves position-correctness of the instrumented grid. -/
theorem posOK_layoutBlock {Btn : Type} (k : List (List (Btn × Nat × Nat)))
    (bl : List (List Btn)) (hk : PosOK k) : PosOK (layoutBlock tupleTr k bl) := by
  match bl with
  | [] => exact hk
  | r0 :: rs => exact posOK_foldl_rows rs _ (posOK_first_row k hk r0)

/-- The whole reduction preserves position-correctness; in particular the
grid rendered from `[[]]` is position-correct. -/
theorem posOK_renderRng {C W Btn : Type} (ctx : C) (w : W) (r : Rng C W Btn)
    (k : List (List (Btn × Nat × Nat))) (hk : PosOK k) :
    PosOK (renderRng ctx w tupleTr r k) :=
  renderRng_preserves ctx w tupleTr (fun k bl hk => posOK_layoutBlock k bl hk) r k hk

theorem posOK_empty {Btn : Type} : @PosOK Btn [[]] := by
  intro r c b i j hget
  unfold gridGet at hget
  match r with
  | 0 => simp at hget
  | r + 1 => simp at hget

theorem mapGrid_length {A B : Type} (f : A → B) (g : List (List A)) :
    (mapGrid f g).length = g.length := by simp [mapGrid]

theorem mapGrid_append {A B : Type} (f : A → B) (g h : List (List A)) :
    mapGrid f (g ++ h) = mapGrid f g ++ mapGrid f h := by simp [mapGrid]

theorem mapGrid_dropLast {A B : Type} (f : A → B) (g : List (List A)) :
    (mapGrid f g).dropLast = mapGrid f g.dropLast := by
  simp only [mapGrid]
  exact (List.map_dropLast _ g).symm

theorem mapGrid_getLastD {A B : Type} (f : A → B) (g : List (List A)) :
    (mapGrid f g).getLastD [] = (g.getLastD []).map f := by
  induction g with
  | nil => rfl
  | cons x xs ih =>
    match xs with
    | [] => rfl
    | y :: ys => simpa [mapGrid, List.getLastD] using ih

theorem foldl_rows_map {Btn A B : Type} (tr : Btn → Nat → Nat → A) (g : A → B)
    (rs : List (List Btn)) :
    ∀ (k1 : List (List A)),
      mapGrid g (rs.foldl (fun k2 r => k2 ++ [transformRow tr k2.length 0 r]) k1) =
        rs.foldl (fun k2 r => k2 ++ [transformRow (fun b i j => g (tr b i j)) k2.length 0 r])
          (mapGrid g k1) := by
  induction rs with
  | nil => intro k1; rfl
  | cons r rs ih =>
    intro k1
    simp only [List.foldl_cons]
    rw [ih]
    congr 1
    rw [mapGrid_append, mapGrid_length]
    simp only [mapGrid, List.map_singleton, transformRow_map]

/-- `layout` commutes with post-composing the button transformer. -/
theorem layoutBlock_map {Btn A B : Type} (tr : Btn → Nat → Nat → A) (g : A → B)
    (k : List (List A)) (bl : List (List Btn)) :
    mapGrid g (layoutBlock tr k bl) =
      layoutBlock (fun b i j => g (tr b i j)) (mapGrid g k) bl := by
  match bl with
  | [] => rfl
  | r0 :: rs =>
    simp only [layoutBlock]
    rw [foldl_rows_map]
    congr 1
    rw [mapGrid_append, mapGrid_dropLast, mapGrid_length, mapGrid_getLastD]
    simp only [mapGrid, List.map_singleton, List.map_append, transformRow_map,
      List.length_map]

mutual
/-- The reduction commutes with post-composing the button transformer: the
grid rendered with transformer `g ∘ tr` is the `g`-image of the grid rendered
with `tr`. -/
theorem renderRng_map {C W Btn A B : Type} (ctx : C) (w : W)
    (tr : Btn → Nat → Nat → A) (g : A → B) :
    ∀ (r : Rng C W Btn) (k : List (List A)),
      mapGrid g (renderRng ctx w tr r k) =
        renderRng ctx w (fun b i j => g (tr b i j)) r (mapGrid g k)
  | .nil, k => rfl
  | .blockCons bl rest, k => by
    simp only [renderRng]
    rw [renderRng_map ctx w tr g rest _, layoutBlock_map]
  | .dynCons f rest, k => by
    simp only [renderRng]
    rw [renderRng_map ctx w tr g rest _, renderDyn_map ctx w tr g (f ctx w) k]
theorem renderDyn_map {C W Btn A B : Type} (ctx : C) (w : W)
    (tr : Btn → Nat → Nat → A) (g : A → B) :
    ∀ (d : DynOut C W Btn) (k : List (List A)),
      mapGrid g (renderDyn ctx w tr d k) =
        renderDyn ctx w (fun b i j => g (tr b i j)) d (mapGrid g k)
  | .raw bl, k => layoutBlock_map tr g k bl
  | .sub r, k => renderRng_map ctx w tr g r k
end

/-! ### Buttons, menu options and the full render (`Menu.render`) -/

/-- The non-navigable button variants (beyond URL and callback buttons),
with their static wire data: `login_url`, `switch_inline_query`,
`switch_inline_query_current_chat`, `switch_inline_query_chosen_chat`,
`web_app`, `callback_game`, `pay`. -/
inductive OtherKind : Type where
  | login (url : Str)
  | switchInline (query : Str)
  | switchInlineCurrent (query : Str)
  | switchInlineChosen
  | webApp (url : Str)
  | game
  | pay
deriving DecidableEq

/-- The variant of a `MenuButton`: the renderer distinguishes `"url" in btn`,
`"middleware" in btn`, and everything else.  Middleware is modelled by
handler identifiers. -/
inductive MBtnKind (C : Type) : Type where
  | url (url : C → Str)
  | cb (middleware : List Nat) (payload : Option (C → Str))
  | other (k : OtherKind)

/-- A `MenuButton`: a possibly context-dependent label plus the variant. -/
structure MBtn (C : Type) where
  text : C → Str
  kind : MBtnKind C

/-- A rendered `InlineKeyboardButton`. -/
inductive IKB : Type where
  | url (url : Str) (text : Str)
  | cb (callback_data : Str) (text : Str)
  | other (k : OtherKind) (text : Str)
deriving DecidableEq

/-- `uniform(ctx, value, fallback)`: resolve an optional, possibly dynamic
string (dynamic strings are modelled as functions of the context). -/
def uniform {C : Type} (ctx : C) (v : Option (C → Str)) (fallback : Str) : Str :=
  match v with
  | none => fallback
  | some f => f ctx

/-- `onMenuOutdated` after constructor normalisation: a notice string, fully
disabled, or custom middleware (a middleware identifier). -/
inductive OutdatedOpt (C : Type) : Type where
  | msg (s : Str)
  | off
  | custom (mwRef : Nat)
deriving DecidableEq

/-- `outdated === false`. -/
def OutdatedOpt.isOff {C : Type} : OutdatedOpt C → Bool
  | .off => true
  | _ => false

/-- The `onMenuOutdated` value as passed to the constructor:
`string | boolean | MenuMiddleware`. -/
inductive OutdatedIn : Type where
  | s (v : Str)
  | b (v : Bool)
  | custom (mwRef : Nat)
deriving DecidableEq

/-- Normalised menu options (`this.options` after the constructor ran). -/
structure MenuOpts (C : Type) where
  autoAnswer : Bool
  onMenuOutdated : OutdatedOpt C
  fingerprint : C → Str

/-- The `MenuOptions` argument of the constructor (all fields optional). -/
structure MenuOptsIn (C : Type) where
  autoAnswer : Option Bool
  onMenuOutdated : Option OutdatedIn
  fingerprint : Option (C → Str)

/-- The default notice string. -/
def defaultOutdatedMsg : Str := str "Menu was outdated, try again!"

/-- The checks and normalisation of the `Menu` constructor: reject an
identifier containing `'/'`; default/`true` `onMenuOutdated` become the
default notice; reject a fingerprint function combined with
`onMenuOutdated: false`. -/
def mkMenuOpts {C : Type} (id : Str) (o : MenuOptsIn C) : Except Str (MenuOpts C) :=
  if slashCp ∈ id then
    .error (str "You cannot use '/' in a menu identifier ('" ++ id ++ str "')")
  else
    let outdated : OutdatedOpt C :=
      match o.onMenuOutdated with
      | none => .msg defaultOutdatedMsg
      | some (.b true) => .msg defaultOutdatedMsg
      | some (.b false) => .off
      | some (.s v) => .msg v
      | some (.custom r) => .custom r
    if o.onMenuOutdated = some (.b false) ∧ o.fingerprint.isSome then
      .error (str "Cannot use a fingerprint function when outdated detection is disabled!")
    else
      .ok { autoAnswer := o.autoAnswer.getD true
            onMenuOutdated := outdated
            fingerprint := o.fingerprint.getD (fun _ => []) }

/-- A menu: identifier, operation list and normalised options.  (Its place in
a registry is part of the registry model below.) -/
structure MenuDef (C W : Type) where
  id : Str
  ops : Rng C W (MBtn C)
  opts : MenuOpts C

/-- `MenuRange.text` at the operation level: add one callback button to the
current row. -/
def MenuDef.textBtn {C W : Type} (m : MenuDef C W) (label : C → Str)
    (payload : Option (C → Str)) (handlers : List Nat) : MenuDef C W :=
  { m with ops := m.ops.add [{ text := label, kind := .cb handlers payload }] }

/-- `MenuRange.row` at the menu level. -/
def MenuDef.rowBreak {C W : Type} (m : MenuDef C W) : MenuDef C W :=
  { m with ops := m.ops.rowOp }

/-- The callback-data template of `Menu.render`:
`` `${this.id}/${row}/${col}/${payload}/` `` with hexadecimal coordinates. -/
def encodeTokenPrefix (menuId : Str) (r c : Nat) (payload : Str) : Str :=
  menuId ++ slashCp :: (toHex r ++ slashCp :: (toHex c ++ slashCp :: (payload ++ [slashCp])))

/-- The button transformer `Menu.render` passes to `createRenderer`: URL
buttons resolve their URL, callback buttons get
`"{id}/{row hex}/{col hex}/{payload}/"` as callback data (rejecting payloads
containing `'/'`); every other button keeps its data. -/
def wireTr {C : Type} (menuId : Str) (ctx : C) (b : MBtn C) (i j : Nat) :
    Except Str IKB :=
  let text := b.text ctx
  match b.kind with
  | .url u => .ok (.url (u ctx) text)
  | .cb _ payload =>
    let p := uniform ctx payload []
    if slashCp ∈ p then
      .error (str "Could not render menu '" ++ menuId ++
        str "'! Payload must not contain a '/' character but was '" ++ p ++ str "'")
    else
      .ok (.cb (encodeTokenPrefix menuId i j p) text)
  | .other k => .ok (.other k text)

/-- Sequence a list of `Except` values left to right, first error wins. -/
def seqList {E A : Type} : List (Except E A) → Except E (List A)
  | [] => .ok []
  | x :: xs =>
    match x with
    | .error e => .error e
    | .ok a =>
      match seqList xs with
      | .error e => .error e
      | .ok as => .ok (a :: as)

/-- Sequence a grid of `Except` values in row-major order.  The source
transforms each button inline while laying it out and a thrown error aborts
the whole render; since buttons are only ever placed at the end of the grid,
placement order is row-major order, so sequencing the laid-out grid yields
the same result (same first error, same success value). -/
def seqGrid {E A : Type} (g : List (List (Except E A))) : Except E (List (List A)) :=
  seqList (g.map seqList)

/-- The fingerprint-injection pass at the end of `Menu.render`: every
callback button's data gets `"f" + tinyHash(fingerprint)` when a custom
fingerprint is set, else `"h" + tinyHash([...lengths, ...label])`. -/
def injectHash (lengths : List Nat) (fingerprint : Str) (b : IKB) : IKB :=
  match b with
  | .cb data text =>
    if fingerprint ≠ [] then .cb (data ++ 102 :: tinyHash fingerprint) text
    else .cb (data ++ 104 :: tinyHash (lengths ++ text)) text
  | x => x

/-- `Menu.render`: render the operation list with the wire transformer,
compute the shape `[rendered.length, ...rendered.map(row => row.length)]`,
resolve the menu's fingerprint, and append the hash tag to every callback
button. -/
def renderFull {C W : Type} (m : MenuDef C W) (ctx : C) (w : W) :
    Except Str (List (List IKB)) :=
  match seqGrid (renderOps ctx w (wireTr m.id ctx) m.ops) with
  | .error e => .error e
  | .ok rendered =>
    let lengths := rendered.length :: rendered.map List.length
    let fingerprint := m.opts.fingerprint ctx
    .ok (mapGrid (injectHash lengths fingerprint) rendered)

/-- Whether an operation list consists of literal blocks only. -/
def staticOnly {C W Btn : Type} : Rng C W Btn → Bool
  | .nil => true
  | .blockCons _ rest => staticOnly rest
  | .dynCons _ _ => false

theorem seqList_ok {E A : Type} :
    ∀ (l : List (Except E A)) (l2 : List A), seqList l = .ok l2 → l = l2.map Except.ok := by
  intro l
  induction l with
  | nil => intro l2 h; simp only [seqList, Except.ok.injEq] at h; subst h; rfl
  | cons x xs ih =>
    intro l2 h
    simp only [seqList] at h
    match x with
    | .error e => simp at h
    | .ok a =>
      match hs : seqList xs with
      | .error e => rw [hs] at h; simp at h
      | .ok as =>
        rw [hs] at h
        simp only [Except.ok.injEq] at h
        subst h
        rw [List.map_cons, ih as hs]

theorem gridGet_mapGrid {A B : Type} (f : A → B) (g : List (List A)) (r c : Nat) :
    gridGet (mapGrid f g) r c = (gridGet g r c).map f := by
  unfold gridGet mapGrid
  rw [List.getElem?_map]
  match g[r]? with
  | none => rfl
  | some row => simp [List.getElem?_map]

/-- Sequencing succeeded: every entry of the result was an `ok` entry of the
input at the same position. -/
theorem seqGrid_ok_entry {E A : Type} (g : List (List (Except E A)))
    (g2 : List (List A)) (hseq : seqGrid g = .ok g2) (r c : Nat) (x : A)
    (hget : gridGet g2 r c = some x) : gridGet g r c = some (.ok x) := by
  unfold seqGrid at hseq
  have hrows := seqList_ok _ _ hseq
  unfold gridGet at hget ⊢
  match hr2 : g2[r]? with
  | none => rw [hr2] at hget; simp at hget
  | some row2 =>
    rw [hr2] at hget
    simp only [Option.some_bind] at hget
    have : (g.map seqList)[r]? = (g2.map Except.ok)[r]? := by rw [hrows]
    rw [List.getElem?_map, List.getElem?_map, hr2] at this
    match hr : g[r]? with
    | none => rw [hr] at this; simp at this
    | some row =>
      rw [hr] at this
      simp only [Option.map_some', Option.some.injEq] at this
      have hrow := seqList_ok row row2 this
      rw [hrow]
      simp [List.getElem?_map, hget]

/-- Rendering a static-only operation list does not consult the ambient
world. -/
theorem renderRng_static {C W Btn B : Type} (ctx : C) (w1 w2 : W)
    (tr : Btn → Nat → Nat → B) :
    ∀ (r : Rng C W Btn), staticOnly r = true →
      ∀ (k : List (List B)), renderRng ctx w1 tr r k = renderRng ctx w2 tr r k
  | .nil, _, k => rfl
  | .blockCons bl rest, hs, k => by
    simp only [staticOnly] at hs
    simp only [renderRng]
    exact renderRng_static ctx w1 w2 tr rest hs _
  | .dynCons f rest, hs, k => by simp [staticOnly] at hs

theorem foldl_rows_length {Btn B : Type} (tr : Btn → Nat → Nat → B) :
    ∀ (rs : List (List Btn)) (k2 : List (List B)),
      (rs.foldl (fun k2 r => k2 ++ [transformRow tr k2.length 0 r]) k2).length =
        k2.length + rs.length := by
  intro rs
  induction rs with
  | nil => intro k2; simp
  | cons r rs ih =>
    intro k2
    simp only [List.foldl_cons]
    rw [ih]
    simp only [List.length_append, List.length_singleton, List.length_cons,
      List.length_nil]
    omega

/-- A nonempty literal block of `n + 1` rows grows the grid by exactly `n`
rows: the first row merges into the current row, each of the `n` following
rows is pushed as a new row. -/
theorem layoutBlock_length {Btn B : Type} (tr : Btn → Nat → Nat → B)
    (k : List (List B)) (hk : k ≠ []) (r0 : List Btn) (rs : List (List Btn)) :
    (layoutBlock tr k (r0 :: rs)).length = k.length + rs.length := by
  simp only [layoutBlock]
  rw [foldl_rows_length]
  simp only [List.length_append, List.length_dropLast, List.length_singleton]
  have : 0 < k.length := List.length_pos.2 hk
  omega

/-- The reduction of `ops ++ [row(), add(btns)]`: the buttons land in one
fresh row appended after everything `ops` produced. -/
theorem renderOps_row_add {C W Btn B : Type} (ctx : C) (w : W)
    (tr : Btn → Nat → Nat → B) (ops : Rng C W Btn) (btns : List Btn) :
    renderOps ctx w tr ((ops.rowOp).add btns) =
      renderOps ctx w tr ops ++
        [transformRow tr (renderOps ctx w tr ops).length 0 btns] := by
  unfold Rng.add Rng.rowOp renderOps
  rw [renderRng_appendOps, renderRng_appendOps]
  have hg : renderRng ctx w tr ops [[]] ≠ [] :=
    renderRng_ne_nil ctx w tr ops [[]] (by simp)
  generalize renderRng ctx w tr ops [[]] = g at *
  show renderRng ctx w tr (.blockCons [btns] .nil)
      (renderRng ctx w tr (.blockCons [[], []] .nil) g) = _
  simp only [renderRng]
  rw [layoutBlock_row tr g hg, layoutBlock_single]
  rw [List.dropLast_concat]
  rw [List.getLastD_eq_getLast? _ _, List.getLast?_concat]
  simp only [Option.getD_some, List.length_append, List.length_singleton,
    List.length_nil, List.nil_append, Nat.add_sub_cancel]

/-! ### Demo menus for the end-to-end claims -/

/-- Default normalised options (`new Menu(id)` with no options). -/
def defaultOpts {C : Type} : MenuOpts C :=
  { autoAnswer := true, onMenuOutdated := .msg defaultOutdatedMsg,
    fingerprint := fun _ => [] }

/-- `new Menu("root")` with an empty operation list. -/
def demoRoot : MenuDef Unit Unit :=
  { id := str "root", ops := Rng.nil, opts := defaultOpts }

/-- `new Menu("root").text("A", h).row().text("B", h2)`, with handler
identifiers 0 and 1. -/
def demoMenuAB : MenuDef Unit Unit :=
  ((demoRoot.textBtn (fun _ => str "A") none [0]).rowBreak).textBtn
    (fun _ => str "B") none [1]

/-- C1: rendering flattens the operation list strictly in order onto an
accumulator that starts as a single empty row: an empty layout renders to
exactly one empty row; a nonempty literal block of `n + 1` rows appends its
first row to the current row and opens `n` new rows; after a `row()`
operation the next added buttons land in a fresh row appended after
everything rendered before; and `new Menu("root").text("A", h).row()
.text("B", h2)` renders to a 2-row grid with one button per row, with the
positionally encoded tokens. -/
theorem c1_render_order :
    (∀ (C W Btn B : Type) (ctx : C) (w : W) (tr : Btn → Nat → Nat → B),
      renderOps ctx w tr .nil = [[]]) ∧
    (∀ (C W Btn B : Type) (ctx : C) (w : W) (tr : Btn → Nat → Nat → B)
      (ops : Rng C W Btn) (r0 : List Btn) (rs : List (List Btn)),
      (renderOps ctx w tr (ops.appendOps (.blockCons (r0 :: rs) .nil))).length =
        (renderOps ctx w tr ops).length + rs.length) ∧
    (∀ (C W Btn B : Type) (ctx : C) (w : W) (tr : Btn → Nat → Nat → B)
      (ops : Rng C W Btn) (btns : List Btn),
      renderOps ctx w tr ((ops.rowOp).add btns) =
        renderOps ctx w tr ops ++
          [transformRow tr (renderOps ctx w tr ops).length 0 btns]) ∧
    renderFull demoMenuAB () () = .ok
      [[.cb (str "root/0/0//" ++ 104 :: tinyHash (2 :: 1 :: 1 :: str "A")) (str "A")],
       [.cb (str "root/1/0//" ++ 104 :: tinyHash (2 :: 1 :: 1 :: str "B")) (str "B")]] := by
  refine ⟨fun _ _ _ _ _ _ _ => rfl, ?_, ?_, ?_⟩
  · intro C W Btn B ctx w tr ops r0 rs
    unfold renderOps
    rw [renderRng_appendOps]
    show (renderRng ctx w tr (.blockCons (r0 :: rs) .nil) _).length = _
    simp only [renderRng]
    exact layoutBlock_length tr _ (renderRng_ne_nil ctx w tr ops [[]] (by simp)) r0 rs
  · exact fun C W Btn B ctx w tr ops btns => renderOps_row_add ctx w tr ops btns
  · rfl

/-- C9: for a layout consisting only of static (literal) blocks, the full
render — grid, encoded tokens and fingerprint tags — does not depend on the
ambient world in which the render runs: with the same request context, any
two renders produce the same result. -/
theorem c9_static_render_pure {C W : Type} (m : MenuDef C W) (ctx : C)
    (hstatic : staticOnly m.ops = true) (w1 w2 : W) :
    renderFull m ctx w1 = renderFull m ctx w2 := by
  unfold renderFull renderOps
  rw [renderRng_static ctx w1 w2 _ m.ops hstatic]

/-- A one-button static menu over a two-valued world type, to witness C9. -/
def demoStaticW : MenuDef Unit Bool :=
  { id := str "root", ops := Rng.nil.add [{ text := fun _ => str "A", kind := .cb [0] none }],
    opts := defaultOpts }

theorem c9_static_render_pure_witness :
    staticOnly demoStaticW.ops = true ∧
      renderFull demoStaticW () true = renderFull demoStaticW () false :=
  ⟨rfl, c9_static_render_pure demoStaticW () rfl true false⟩

/-- C10: the row and column indices the renderer passes to the button
transformer equal the button's final position in the returned grid (the
reduction only appends to the last row or pushes new rows), and consequently
the hex coordinates encoded in every callback button's token of a full
render equal the position at which the button appears in the grid that is
sent. -/
theorem c10_positions_match_tokens :
    (∀ (C W Btn : Type) (ctx : C) (w : W) (rng : Rng C W Btn) (r c : Nat)
      (b : Btn) (i j : Nat),
      gridGet (renderOps ctx w tupleTr rng) r c = some (b, i, j) → i = r ∧ j = c) ∧
    (∀ (C W : Type) (m : MenuDef C W) (ctx : C) (w : W) (g : List (List IKB))
      (r c : Nat) (d t : Str),
      renderFull m ctx w = .ok g → gridGet g r c = some (.cb d t) →
      ∃ p tag, d = m.id ++ slashCp :: (toHex r ++ slashCp :: (toHex c ++ slashCp ::
        (p ++ slashCp :: tag)))) := by
  constructor
  · intro C W Btn ctx w rng r c b i j hget
    exact posOK_renderRng ctx w rng [[]] posOK_empty r c b i j hget
  · intro C W m ctx w g r c d t hren hget
    unfold renderFull at hren
    match hseq : seqGrid (renderOps ctx w (wireTr m.id ctx) m.ops) with
    | .error e => rw [hseq] at hren; simp at hren
    | .ok rendered =>
      rw [hseq] at hren
      simp only [Except.ok.injEq] at hren
      subst hren
      rw [gridGet_mapGrid] at hget
      match hr : gridGet rendered r c with
      | none => rw [hr] at hget; simp at hget
      | some b0 =>
        rw [hr] at hget
        simp only [Option.map_some', Option.some.injEq] at hget
        have hwire := seqGrid_ok_entry _ _ hseq r c b0 hr
        have hinstr : gridGet
            (mapGrid (fun e : MBtn C × Nat × Nat => wireTr m.id ctx e.1 e.2.1 e.2.2)
              (renderOps ctx w tupleTr m.ops)) r c = some (.ok b0) := by
          unfold renderOps
          rw [renderRng_map ctx w tupleTr
            (fun e : MBtn C × Nat × Nat => wireTr m.id ctx e.1 e.2.1 e.2.2) m.ops [[]]]
          exact hwire
        rw [gridGet_mapGrid] at hinstr
        match hi : gridGet (renderOps ctx w tupleTr m.ops) r c with
        | none => rw [hi] at hinstr; simp at hinstr
        | some e =>
          rw [hi] at hinstr
          simp only [Option.map_some', Option.some.injEq] at hinstr
          match e with
          | (btn, i, j) =>
            obtain ⟨hir, hjc⟩ :=
              posOK_renderRng ctx w m.ops [[]] posOK_empty r c btn i j hi
            subst hir hjc
            simp only at hinstr
            match hbk : btn.kind with
            | .url u =>
              rw [wireTr, hbk] at hinstr
              simp only [Except.ok.injEq] at hinstr
              rw [← hinstr] at hget
              simp [injectHash] at hget
            | .other k =>
              rw [wireTr, hbk] at hinstr
              simp only [Except.ok.injEq] at hinstr
              rw [← hinstr] at hget
              simp [injectHash] at hget
            | .cb mws payload =>
              rw [wireTr, hbk] at hinstr
              simp only at hinstr
              by_cases hp : slashCp ∈ uniform ctx payload []
              · rw [if_pos hp] at hinstr
                simp at hinstr
              · rw [if_neg hp] at hinstr
                simp only [Except.ok.injEq] at hinstr
                rw [← hinstr] at hget
                simp only [injectHash] at hget
                split at hget
                · cases hget
                  exact ⟨uniform ctx payload [], 102 :: tinyHash (m.opts.fingerprint ctx),
                    by simp [encodeTokenPrefix, List.append_assoc]⟩
                · cases hget
                  exact ⟨uniform ctx payload [],
                    104 :: tinyHash (rendered.length :: List.map List.length rendered ++
                      btn.text ctx),
                    by simp [encodeTokenPrefix, List.append_assoc]⟩

theorem c10_positions_match_tokens_witness :
    ∃ p tag,
      str "root/1/0//" ++ 104 :: tinyHash (2 :: 1 :: 1 :: str "B") =
        demoMenuAB.id ++ slashCp :: (toHex 1 ++ slashCp :: (toHex 0 ++ slashCp ::
          (p ++ slashCp :: tag))) :=
  c10_positions_match_tokens.2 Unit Unit demoMenuAB () ()
    [[.cb (str "root/0/0//" ++ 104 :: tinyHash (2 :: 1 :: 1 :: str "A")) (str "A")],
     [.cb (str "root/1/0//" ++ 104 :: tinyHash (2 :: 1 :: 1 :: str "B")) (str "B")]]
    1 0 (str "root/1/0//" ++ 104 :: tinyHash (2 :: 1 :: 1 :: str "B")) (str "B")
    rfl rfl

/-! ### The wire codec claims -/

/-- The token-field extraction of `Menu.middleware`:
`const [id, rowStr, colStr, payload, ...rest] = data.split("/")` followed by
`rest.join("/")` (missing fields are the empty string, as JavaScript's
`undefined` is falsy exactly like `""` at every use site). -/
def parseToken (data : Str) : Str × Str × Str × Str × Str :=
  let parts := splitSlash data
  (parts.getD 0 [], parts.getD 1 [], parts.getD 2 [], parts.getD 3 [],
    joinSep [slashCp] (parts.drop 4))

/-- C4: encoding a callback button's identity as
`"menuId/rowHex/colHex/payload/"` plus a tag and splitting the result on
`'/'` recovers the identifier, both hex coordinate strings, the payload and
the tag exactly, and `parseInt(·, 16)` recovers the numeric coordinates —
for any identifier and payload free of `'/'` and any coordinates in
`[0, 4095]`. -/
theorem c4_token_roundtrip (menuId payload tag : Str) (r c : Nat)
    (hid : slashCp ∉ menuId) (hp : slashCp ∉ payload)
    (hr : r ≤ 4095) (hc : c ≤ 4095) :
    parseToken (encodeTokenPrefix menuId r c payload ++ tag) =
      (menuId, toHex r, toHex c, payload, tag) ∧
    parseIntHex (toHex r) = some (r : Int) ∧
    parseIntHex (toHex c) = some (c : Int) := by
  refine ⟨?_, parseIntHex_toHex r, parseIntHex_toHex c⟩
  have hsplit : splitSlash (encodeTokenPrefix menuId r c payload ++ tag) =
      menuId :: toHex r :: toHex c :: payload :: splitSlash tag := by
    unfold encodeTokenPrefix
    have h1 : (menuId ++ slashCp :: (toHex r ++ slashCp :: (toHex c ++ slashCp ::
        (payload ++ [slashCp])))) ++ tag =
        menuId ++ slashCp :: (toHex r ++ slashCp :: (toHex c ++ slashCp ::
          (payload ++ slashCp :: tag))) := by
      simp [List.append_assoc]
    rw [h1, splitSlash_append _ _ hid, splitSlash_append _ _ (slash_not_mem_toHex r),
      splitSlash_append _ _ (slash_not_mem_toHex c), splitSlash_append _ _ hp]
  unfold parseToken
  rw [hsplit]
  have htag := splitSlash_ne_nil tag
  match htag2 : splitSlash tag with
  | [] => exact absurd htag2 htag
  | t0 :: ts =>
    simp only [List.getD_cons_zero, List.getD_cons_succ, List.drop_succ_cons,
      List.drop_zero]
    rw [← htag2, joinSep_splitSlash tag]

theorem c4_token_roundtrip_witness :
    parseToken (encodeTokenPrefix (str "root") 5 4095 (str "xy") ++ (104 :: tinyHash [7])) =
      (str "root", toHex 5, toHex 4095, str "xy", 104 :: tinyHash [7]) ∧
    parseIntHex (toHex 5) = some (5 : Int) ∧
    parseIntHex (toHex 4095) = some (4095 : Int) :=
  c4_token_roundtrip (str "root") (str "xy") (104 :: tinyHash [7]) 5 4095
    (by decide) (by decide) (by decide) (by decide)

/-- C5 fails as stated: the tag is the UTF-8 decoding of the four raw hash
bytes, and a hash value whose bytes form a valid multi-byte UTF-8 sequence
decodes to fewer than four characters.  For the input `[3263167883]` the
hash value is `0xC2800000`, whose bytes decode to the three code points
`[0x80, 0, 0]`. -/
theorem c5_counterexample :
    (tinyHash [3263167883]).length = 3 ∧ ¬ (tinyHash [3263167883]).length = 4 := by
  decide

/-- C5 (amended): the tag appended to a token is the UTF-8 decoding (with
replacement) of the four bytes of the hash value; it always consists of at
least one and at most four characters, but not always exactly four. -/
theorem c5_tag_length_bounds (nums : List Nat) :
    1 ≤ (tinyHash nums).length ∧ (tinyHash nums).length ≤ 4 := by
  unfold tinyHash
  have h := utf8Decode_len (tinyHashBytes nums)
  rw [tinyHashBytes_length nums] at h
  exact ⟨h.2 (by simp [tinyHashBytes]), h.1⟩

/-- C6: the hash value is the left fold `h := (37 * h + n) % 2 ^ 32` over the
input, seeded with 17, and the emitted bytes are the four bytes of that
32-bit value, most significant first. -/
theorem c6_tinyHash_formula (nums : List Nat) :
    tinyHashVal nums = nums.foldl (fun h n => (37 * h + n) % 2 ^ 32) 17 ∧
    tinyHashBytes nums =
      [tinyHashVal nums / 2 ^ 24 % 256, tinyHashVal nums / 2 ^ 16 % 256,
        tinyHashVal nums / 2 ^ 8 % 256, tinyHashVal nums % 256] ∧
    tinyHashVal nums < 2 ^ 32 := by
  refine ⟨?_, ?_, tinyHashVal_lt nums⟩
  · unfold tinyHashVal
    congr 1
    funext h n
    simp only [Nat.shiftLeft_eq]
    ring_nf
  · have hlt := tinyHashVal_lt nums
    unfold tinyHashBytes
    simp only [Nat.shiftRight_eq_div_pow]
    have hmask : ∀ k : Nat, k &&& 255 = k % 256 := fun k => by
      have := Nat.and_pow_two_sub_one_eq_mod k 8
      norm_num at this
      exact this
    have h24 : tinyHashVal nums / 2 ^ 24 < 256 := by
      have hlt2 : tinyHashVal nums < 2 ^ 24 * 256 := by norm_num at hlt ⊢; omega
      exact Nat.div_lt_of_lt_mul hlt2
    rw [hmask, hmask, hmask, Nat.mod_eq_of_lt h24]

/-! ### The registry world: menus as heap objects sharing mutable registries

`Menu` objects are mutable (their `parent` and `index` fields are reassigned
by `register`), and registries (`index` maps) are shared by reference.  The
heap is modelled explicitly: `Sys.menus` is the store of menu objects
(addressed by position) and `Sys.regs` the store of registry maps; each menu
holds the address `indexRef` of the registry it currently shares.  A
JavaScript `Map` is an insertion-ordered association list whose `set`
updates in place or appends. -/

structure SysMenu (C W : Type) where
  id : Str
  ops : Rng C W (MBtn C)
  opts : MenuOpts C
  parent : Option Str
  indexRef : Nat
  frozen : Bool

instance {C W : Type} : Inhabited (SysMenu C W) :=
  ⟨{ id := [], ops := .nil, opts := defaultOpts, parent := none, indexRef := 0,
     frozen := false }⟩

structure Sys (C W : Type) where
  menus : List (SysMenu C W)
  regs : List (List (Str × Nat))

/-- `Map.prototype.get`. -/
def regGet (reg : List (Str × Nat)) (id : Str) : Option Nat :=
  match reg with
  | [] => none
  | (k, v) :: rest => if k = id then some v else regGet rest id

/-- `Map.prototype.set`: overwrite in place, else append (insertion order). -/
def regSet (reg : List (Str × Nat)) (id : Str) (v : Nat) : List (Str × Nat) :=
  match reg with
  | [] => [(id, v)]
  | (k, v2) :: rest => if k = id then (id, v) :: rest else (k, v2) :: regSet rest id v

def Sys.menuAt {C W : Type} (s : Sys C W) (r : Nat) : SysMenu C W :=
  s.menus.getD r default

/-- The registry the menu at `r` currently shares (`this.index`). -/
def Sys.regOf {C W : Type} (s : Sys C W) (r : Nat) : List (Str × Nat) :=
  s.regs.getD (s.menuAt r).indexRef []

def Sys.setMenu {C W : Type} (s : Sys C W) (r : Nat) (m : SysMenu C W) : Sys C W :=
  { s with menus := s.menus.set r m }

/-- `Menu.freeze`: bar further structural mutation of the operation list. -/
def Sys.freezeMenu {C W : Type} (s : Sys C W) (r : Nat) : Sys C W :=
  s.setMenu r { s.menuAt r with frozen := true }

/-- One `this.index.set(id, m); m.index = this.index` step of the merge
loop: copy one entry of the incoming registry into the target registry and
repoint that menu's registry reference. -/
def Sys.mergeEntry {C W : Type} (selfRegIdx : Nat) (st : Sys C W)
    (e : Str × Nat) : Sys C W :=
  { st with
    regs := st.regs.set selfRegIdx (regSet (st.regs.getD selfRegIdx []) e.1 e.2),
    menus := st.menus.set e.2 { st.menuAt e.2 with indexRef := selfRegIdx } }

/-- `Menu.register(menus, parent = this.id)`: reject when a top-level
incoming menu's identifier is already a key of the target registry
(`arr.find(m => this.index.has(m.id))`), else freeze the receiver and, for
each incoming menu, freeze it, merge its whole registry into the target
(repointing every merged menu's registry reference) and set its parent. -/
def Sys.register {C W : Type} (s : Sys C W) (selfR : Nat) (arr : List Nat)
    (parent : Str) : Except Str (Sys C W) :=
  let selfRegIdx := (s.menuAt selfR).indexRef
  match arr.find? (fun mr => (regGet (s.regs.getD selfRegIdx []) (s.menuAt mr).id).isSome) with
  | some mr => .error (str "Menu '" ++ (s.menuAt mr).id ++ str "' already registered!")
  | none =>
    let s1 := s.freezeMenu selfR
    .ok (arr.foldl (fun s2 mr =>
      let s3 := s2.freezeMenu mr
      let entries := s3.regs.getD ((s3.menuAt mr).indexRef) []
      let s4 := entries.foldl (Sys.mergeEntry selfRegIdx) s3
      s4.setMenu mr { s4.menuAt mr with parent := some parent }) s1)

/-- `` `'${k}'` ``: a menu identifier quoted for an error message. -/
def quoteStr (k : Str) : Str := str "'" ++ k ++ str "'"

/-- `Menu.at(id)`: registry lookup; on failure, an error naming every known
identifier (quoted, joined by `", "`). -/
def Sys.atRef {C W : Type} (s : Sys C W) (selfR : Nat) (id : Str) : Except Str Nat :=
  let self := s.menuAt selfR
  let reg := s.regs.getD self.indexRef []
  match regGet reg id with
  | some r => .ok r
  | none =>
    .error (str "Menu '" ++ id ++ str "' is not known to menu '" ++ self.id ++
      str "'! Known submenus are: " ++
      joinSep (str ", ") ((reg.map Prod.fst).map quoteStr))

/-- `ctx.menu.nav(to)` resolves its target through `menu.at(to)`. -/
def Sys.panelNav {C W : Type} (s : Sys C W) (selfR : Nat) (target : Str) :
    Except Str Nat :=
  s.atRef selfR target

/-- `ctx.menu.back()`: fails when the bound menu has no parent, else
resolves the parent through `menu.at`. -/
def Sys.panelBack {C W : Type} (s : Sys C W) (selfR : Nat) : Except Str Nat :=
  match (s.menuAt selfR).parent with
  | none =>
    .error (str "Cannot navigate back from menu '" ++ (s.menuAt selfR).id ++
      str "', no known parent!")
  | some p => s.atRef selfR p

/-! ### Click verification (`Menu.middleware`, the `callback_query:data` handler) -/

/-- The observable outcome of handling one incoming callback query. -/
inductive ClickOutcome : Type where
  | ignore
  | outdatedNotice (menuRef : Nat) (notice : Str)
  | outdatedCustom (menuRef : Nat) (mwRef : Nat)
  | valid (menuRef : Nat) (handlers : List Nat) (autoAnswer : Bool) (matched : Str)
  | fatal (msg : Str)
deriving DecidableEq

/-- `menuIsOutdated()`: `onMenuOutdated === false` throws `"cannot happen"`;
custom middleware is dispatched (with the nav installer); a string becomes
the user-visible notice plus the eager re-render of the same menu. -/
def menuIsOutdatedRes {C : Type} (opts : MenuOpts C) (mref : Nat) : ClickOutcome :=
  match opts.onMenuOutdated with
  | .off => .fatal (str "cannot happen")
  | .custom mw => .outdatedCustom mref mw
  | .msg s => .outdatedNotice mref s

/-- The button-level tail of the verification, shared by the checked and
unchecked dimension paths: fetch `range[row][col]` (a missing entry is a
thrown `TypeError`), require a callback button, compare the structural hash
when checking is active, and dispatch the handler chain. -/
def verifyButton {C : Type} (ctx : C) (opts : MenuOpts C) (menuId : Str)
    (range : List (List (MBtn C))) (check : Bool) (row? col? : Option Int)
    (hashCps payload : Str) (mref : Nat) : ClickOutcome :=
  match row?, col? with
  | some ri, some ci =>
    match gridGet range ri.toNat ci.toNat with
    | none => .fatal (str "TypeError")
    | some btn =>
      match btn.kind with
      | .cb handlers _ =>
        if check then
          let rowCount := range.length
          let rowLengths := range.map List.length
          let label := btn.text ctx
          let d := rowCount :: rowLengths ++ label
          if hashCps ≠ tinyHash d then menuIsOutdatedRes opts mref
          else .valid mref handlers opts.autoAnswer payload
        else .valid mref handlers opts.autoAnswer payload
      | _ =>
        if check then menuIsOutdatedRes opts mref
        else .fatal (str "Cannot invoke handlers because menu '" ++
          menuId ++ str "' is outdated!")
  | _, _ => .fatal (str "TypeError")

/-- The verification run on an incoming callback token (the `lazy` handler of
`Menu.middleware`): parse the token, resolve the menu, check the fingerprint
tag, dry-render the menu with the identity transformer, check coordinates,
button kind and the structural hash, and either dispatch the button's
handler chain or divert to the outdated handling.  `NaN` coordinate
comparisons are false; indexing `undefined` (out-of-range rows or columns on
the unchecked paths) is a thrown `TypeError`. -/
def verifyClick {C W : Type} (s : Sys C W) (selfR : Nat) (ctx : C) (w : W)
    (data : Str) : ClickOutcome :=
  let (id, rowStr, colStr, payload, tagStr) := parseToken data
  if rowStr = [] ∨ colStr = [] then .ignore
  else
    match tagStr with
    | [] => .ignore
    | type :: hashCps =>
      if type ≠ 104 ∧ type ≠ 102 then .ignore
      else
        match regGet (s.regOf selfR) id with
        | none => .ignore
        | some mref =>
          let m := s.menuAt mref
          let row? := parseIntHex rowStr
          let col? := parseIntHex colStr
          if ltNaN row? 0 || ltNaN col? 0 then
            .fatal (str "Invalid button position '" ++ rowStr ++ str "/" ++ colStr ++ str "'")
          else
            let fingerprint := m.opts.fingerprint ctx
            let useFp : Bool := fingerprint ≠ []
            if useFp ≠ decide (type = 102) then menuIsOutdatedRes m.opts mref
            else if useFp ∧ tinyHash fingerprint ≠ hashCps then
              menuIsOutdatedRes m.opts mref
            else
              let range := renderRng ctx w (fun b _ _ => b) m.ops [[]]
              let check : Bool := !useFp && !m.opts.onMenuOutdated.isOff
              if check then
                if geNaN row? range.length then menuIsOutdatedRes m.opts mref
                else
                  match row? with
                  | none => .fatal (str "TypeError")
                  | some ri =>
                    if geNaN col? (range.getD ri.toNat []).length then
                      menuIsOutdatedRes m.opts mref
                    else
                      verifyButton ctx m.opts m.id range check row? col? hashCps payload mref
              else verifyButton ctx m.opts m.id range check row? col? hashCps payload mref

/-! ### C2: the declared payload is not verified against the re-rendered button -/

/-- The payload field of a button (`btn.payload`, absent for non-callback
variants). -/
def MBtnKind.payloadOf {C : Type} : MBtnKind C → Option (C → Str)
  | .cb _ payload => payload
  | _ => none

/-- The single button of the C2 scenario: label `"A"`, payload `"real"`,
handler 5. -/
def c2Btn : MBtn Unit :=
  { text := fun _ => str "A", kind := .cb [5] (some (fun _ => str "real")) }

/-- `new Menu("m").text({ text: "A", payload: "real" }, h5)` as a heap
object owning registry 0. -/
def c2Menu : SysMenu Unit Unit :=
  { id := str "m", ops := Rng.nil.add [c2Btn],
    opts := defaultOpts, parent := none, indexRef := 0, frozen := false }

def c2Sys : Sys Unit Unit := { menus := [c2Menu], regs := [[(str "m", 0)]] }

/-- The genuinely rendered token for the button at `(0, 0)`, with its
payload segment replaced by `"forged"`: the structural tag (shape and label
only) is unchanged. -/
def c2ForgedToken : Str := str "m/0/0/forged/" ++ 104 :: tinyHash (1 :: 1 :: str "A")

/-- C2 fails on the current code: after the coordinate and button-kind
checks pass, the verification never compares the token's declared payload
with the payload the re-rendered button would produce.  The button renders
with payload `"real"`; a token differing only in its payload segment
(`"forged"`) still carries a matching structural tag, and verification
dispatches the handler chain (with `ctx.match = "forged"`) instead of taking
the outdated branch. -/
theorem c2_payload_mismatch_not_outdated :
    renderFull { id := str "m", ops := c2Menu.ops, opts := defaultOpts } () () =
      .ok [[.cb (str "m/0/0/real/" ++ 104 :: tinyHash (1 :: 1 :: str "A")) (str "A")]] ∧
    c2ForgedToken = str "m/0/0/forged/" ++ 104 :: tinyHash (1 :: 1 :: str "A") ∧
    uniform () c2Btn.kind.payloadOf [] = str "real" ∧
    str "real" ≠ str "forged" ∧
    verifyClick c2Sys 0 () () c2ForgedToken = .valid 0 [5] true (str "forged") :=
  ⟨rfl, rfl, rfl, by decide, rfl⟩

/-! ### C8: the diagnostics of `back()` and `nav()` -/

theorem segAt_self_append (n t : Str) : segAt n (n ++ t) = true := by
  induction n with
  | nil => rfl
  | cons a as ih => simp [segAt, ih]

theorem containsSeg_append (n pre post : Str) :
    containsSeg n (pre ++ (n ++ post)) = true := by
  induction pre with
  | nil =>
    simp only [List.nil_append]
    match n with
    | [] =>
      match post with
      | [] => rfl
      | b :: bs => simp [containsSeg, segAt]
    | a :: as =>
      simp only [containsSeg, Bool.or_eq_true]
      exact Or.inl (segAt_self_append (a :: as) post)
  | cons p ps ih => simp [containsSeg, ih]

/-- Every element of a `", "`-joined list occurs contiguously in the join. -/
theorem joinSep_mem_split (sep : Str) (k : Str) :
    ∀ (l : List Str), k ∈ l →
      ∃ pre post, joinSep sep l = pre ++ (k ++ post) := by
  intro l
  induction l with
  | nil => intro h; simp at h
  | cons x xs ih =>
    intro hmem
    match xs with
    | [] =>
      simp only [List.mem_singleton] at hmem
      subst hmem
      exact ⟨[], [], by simp [joinSep]⟩
    | y :: ys =>
      rcases List.mem_cons.1 hmem with h | h
      · subst h
        exact ⟨[], sep ++ joinSep sep (y :: ys), by simp [joinSep]⟩
      · obtain ⟨pre, post, hpre⟩ := ih h
        refine ⟨x ++ sep ++ pre, post, ?_⟩
        simp only [joinSep, hpre]
        simp [List.append_assoc]

/-- C8 (amended): navigating to an identifier unknown to the registry throws
an error whose message includes every known (quoted) menu identifier, while
`back()` on a menu with no registered parent throws an error that names only
that menu — the known-identifier list appears in `nav`'s (and `at`'s)
diagnostic, not in `back`'s no-parent error. -/
theorem c8_nav_back_errors {C W : Type} (s : Sys C W) (selfR : Nat) (target : Str)
    (hmiss : regGet (s.regs.getD (s.menuAt selfR).indexRef []) target = none) :
    (∃ msg, s.panelNav selfR target = .error msg ∧
      ∀ k ∈ (s.regs.getD (s.menuAt selfR).indexRef []).map Prod.fst,
        containsSeg (quoteStr k) msg = true) ∧
    ((s.menuAt selfR).parent = none →
      s.panelBack selfR = .error (str "Cannot navigate back from menu '" ++
        (s.menuAt selfR).id ++ str "', no known parent!")) := by
  constructor
  · refine ⟨str "Menu '" ++ target ++ str "' is not known to menu '" ++
        (s.menuAt selfR).id ++ str "'! Known submenus are: " ++
        joinSep (str ", ")
          (((s.regs.getD (s.menuAt selfR).indexRef []).map Prod.fst).map quoteStr),
      ?_, ?_⟩
    · unfold Sys.panelNav Sys.atRef
      simp only []
      rw [hmiss]
    · intro k hk
      have hq : quoteStr k ∈ ((s.regs.getD (s.menuAt selfR).indexRef []).map Prod.fst).map
          quoteStr := List.mem_map_of_mem quoteStr hk
      obtain ⟨pre, post, hsplit⟩ := joinSep_mem_split (str ", ") (quoteStr k) _ hq
      rw [hsplit]
      have : str "Menu '" ++ target ++ str "' is not known to menu '" ++
          (s.menuAt selfR).id ++ str "'! Known submenus are: " ++ (pre ++ (quoteStr k ++ post)) =
          (str "Menu '" ++ target ++ str "' is not known to menu '" ++
            (s.menuAt selfR).id ++ str "'! Known submenus are: " ++ pre) ++
            (quoteStr k ++ post) := by
        simp [List.append_assoc]
      rw [this]
      exact containsSeg_append _ _ _
  · intro hpar
    unfold Sys.panelBack
    rw [hpar]

/-- A world in which `"root"` has no parent and the shared registry knows
`"root"` and `"sub"` (the state after `root.register(sub)`). -/
def c8Root : SysMenu Unit Unit :=
  { id := str "root", ops := .nil, opts := defaultOpts, parent := none,
    indexRef := 0, frozen := true }

def c8Sub : SysMenu Unit Unit :=
  { id := str "sub", ops := .nil, opts := defaultOpts, parent := some (str "root"),
    indexRef := 0, frozen := true }

def c8Sys : Sys Unit Unit :=
  { menus := [c8Root, c8Sub], regs := [[(str "root", 0), (str "sub", 1)]] }

/-- C8 fails as stated: `back()` on the parentless `"root"` does throw, but
its message does not include the known identifier `"sub"`, although `"sub"`
is in the registry — the no-parent error carries no list of valid
identifiers. -/
theorem c8_counterexample :
    Sys.panelBack c8Sys 0 =
      .error (str "Cannot navigate back from menu 'root', no known parent!") ∧
    (str "sub") ∈ (c8Sys.regs.getD (c8Sys.menuAt 0).indexRef []).map Prod.fst ∧
    containsSeg (quoteStr (str "sub"))
      (str "Cannot navigate back from menu 'root', no known parent!") = false := by
  refine ⟨rfl, by decide, by decide⟩

theorem c8_nav_back_errors_witness :
    (∃ msg, Sys.panelNav c8Sys 0 (str "nope") = .error msg ∧
      ∀ k ∈ (c8Sys.regs.getD (c8Sys.menuAt 0).indexRef []).map Prod.fst,
        containsSeg (quoteStr k) msg = true) ∧
    ((c8Sys.menuAt 0).parent = none →
      Sys.panelBack c8Sys 0 = .error (str "Cannot navigate back from menu '" ++
        (c8Sys.menuAt 0).id ++ str "', no known parent!")) :=
  c8_nav_back_errors c8Sys 0 (str "nope") rfl

/-! ### C7: `register` — rejection check and merge behaviour -/

theorem getD_set_self {A : Type} [Inhabited A] (l : List A) (i : Nat) (a : A)
    (h : i < l.length) : (l.set i a).getD i default = a := by
  rw [List.getD_eq_getElem?_getD, List.getElem?_set_eq h]
  rfl

theorem getD_set_ne {A : Type} [Inhabited A] (l : List A) (i j : Nat) (a : A)
    (h : i ≠ j) : (l.set i a).getD j default = l.getD j default := by
  rw [List.getD_eq_getElem?_getD, List.getElem?_set_ne h,
    ← List.getD_eq_getElem?_getD]

theorem regGet_regSet_self (reg : List (Str × Nat)) (k : Str) (v : Nat) :
    regGet (regSet reg k v) k = some v := by
  induction reg with
  | nil => simp [regSet, regGet]
  | cons e rest ih =>
    match e with
    | (k0, v0) =>
      simp only [regSet]
      by_cases hk : k0 = k
      · subst hk; simp [regGet]
      · rw [if_neg hk]
        simp only [regGet, if_neg hk]
        exact ih

theorem regGet_regSet_ne (reg : List (Str × Nat)) (k k2 : Str) (v : Nat)
    (h : k ≠ k2) : regGet (regSet reg k v) k2 = regGet reg k2 := by
  induction reg with
  | nil => simp [regSet, regGet, h]
  | cons e rest ih =>
    match e with
    | (k0, v0) =>
      simp only [regSet]
      by_cases hk : k0 = k
      · subst hk
        simp only [regGet, if_neg h, if_neg h]
      · rw [if_neg hk]
        simp only [regGet]
        by_cases hk2 : k0 = k2
        · simp [hk2]
        · simp only [if_neg hk2]
          exact ih

/-- Keys untouched by all merged entries keep their old binding. -/
theorem regFold_not_mem (entries : List (Str × Nat)) :
    ∀ (reg : List (Str × Nat)) (k : Str), k ∉ entries.map Prod.fst →
      regGet (entries.foldl (fun reg e => regSet reg e.1 e.2) reg) k = regGet reg k := by
  induction entries with
  | nil => intro reg k _; rfl
  | cons e es ih =>
    intro reg k hk
    simp only [List.map_cons, List.mem_cons, not_or] at hk
    simp only [List.foldl_cons]
    rw [ih _ k hk.2, regGet_regSet_ne _ _ _ _ (fun hh => hk.1 hh.symm)]

/-- Every merged entry (with pairwise distinct keys) ends bound to its
value. -/
theorem regFold_mem (entries : List (Str × Nat)) :
    ∀ (reg : List (Str × Nat)) (k : Str) (v : Nat),
      (entries.map Prod.fst).Nodup → (k, v) ∈ entries →
      regGet (entries.foldl (fun reg e => regSet reg e.1 e.2) reg) k = some v := by
  induction entries with
  | nil => intro reg k v _ hmem; simp at hmem
  | cons e es ih =>
    intro reg k v hnodup hmem
    simp only [List.map_cons, List.nodup_cons] at hnodup
    simp only [List.foldl_cons]
    rcases List.mem_cons.1 hmem with h | h
    · subst h
      rw [regFold_not_mem es _ _ hnodup.1, regGet_regSet_self]
    · exact ih _ k v hnodup.2 h

theorem freezeMenu_regs {C W : Type} (s : Sys C W) (r : Nat) :
    (s.freezeMenu r).regs = s.regs := rfl

theorem setMenu_regs {C W : Type} (s : Sys C W) (r : Nat) (m : SysMenu C W) :
    (s.setMenu r m).regs = s.regs := rfl

theorem freezeMenu_menus_length {C W : Type} (s : Sys C W) (r : Nat) :
    (s.freezeMenu r).menus.length = s.menus.length := List.length_set ..

theorem setMenu_menuAt_self {C W : Type} (s : Sys C W) (r : Nat) (m : SysMenu C W)
    (h : r < s.menus.length) : (s.setMenu r m).menuAt r = m := by
  unfold Sys.setMenu Sys.menuAt
  exact getD_set_self _ _ _ h

theorem setMenu_menuAt_ne {C W : Type} (s : Sys C W) (r x : Nat) (m : SysMenu C W)
    (h : r ≠ x) : (s.setMenu r m).menuAt x = s.menuAt x := by
  unfold Sys.setMenu Sys.menuAt
  exact getD_set_ne _ _ _ _ h

theorem freezeMenu_indexRef {C W : Type} (s : Sys C W) (r x : Nat) :
    ((s.freezeMenu r).menuAt x).indexRef = (s.menuAt x).indexRef := by
  unfold Sys.freezeMenu Sys.setMenu Sys.menuAt
  by_cases hx : r = x
  · subst hx
    by_cases hr : r < s.menus.length
    · rw [getD_set_self _ _ _ hr]
    · rw [List.set_eq_of_length_le (by omega)]
  · rw [getD_set_ne _ _ _ _ hx]

/-- The registry component of the merge fold: only the target registry
changes, by the plain `regSet` fold over the merged entries. -/
theorem mergeEntries_regs {C W : Type} (selfIdx : Nat) :
    ∀ (entries : List (Str × Nat)) (st : Sys C W), selfIdx < st.regs.length →
      (entries.foldl (Sys.mergeEntry selfIdx) st).regs.getD selfIdx [] =
        entries.foldl (fun reg e => regSet reg e.1 e.2) (st.regs.getD selfIdx []) ∧
      (entries.foldl (Sys.mergeEntry selfIdx) st).regs.length = st.regs.length := by
  intro entries
  induction entries with
  | nil => intro st h; exact ⟨rfl, rfl⟩
  | cons e es ih =>
    intro st h
    simp only [List.foldl_cons]
    have hlen : (Sys.mergeEntry selfIdx st e).regs.length = st.regs.length := by
      simp [Sys.mergeEntry, List.length_set]
    obtain ⟨h1, h2⟩ := ih (Sys.mergeEntry selfIdx st e) (by omega)
    refine ⟨?_, by omega⟩
    rw [h1]
    have : (Sys.mergeEntry selfIdx st e).regs.getD selfIdx [] =
        regSet (st.regs.getD selfIdx []) e.1 e.2 := by
      simp only [Sys.mergeEntry]
      exact getD_set_self _ _ _ h
    rw [this]

/-- The menu-store component of the merge fold: each entry repoints the
referenced menu's registry reference, in order. -/
theorem mergeEntries_menus {C W : Type} (selfIdx : Nat) :
    ∀ (entries : List (Str × Nat)) (st : Sys C W),
      (entries.foldl (Sys.mergeEntry selfIdx) st).menus =
        entries.foldl
          (fun ms e => ms.set e.2 { ms.getD e.2 default with indexRef := selfIdx })
          st.menus := by
  intro entries
  induction entries with
  | nil => intro st; rfl
  | cons e es ih =>
    intro st
    simp only [List.foldl_cons]
    rw [ih (Sys.mergeEntry selfIdx st e)]
    rfl

theorem menusFold_length {C W : Type} (selfIdx : Nat) :
    ∀ (entries : List (Str × Nat)) (ms : List (SysMenu C W)),
      (entries.foldl
        (fun ms e => ms.set e.2 { ms.getD e.2 default with indexRef := selfIdx })
        ms).length = ms.length := by
  intro entries
  induction entries with
  | nil => intro ms; rfl
  | cons e es ih =>
    intro ms
    simp only [List.foldl_cons]
    rw [ih]
    exact List.length_set ..

/-- After the merge fold, every menu referenced by a merged entry (and any
menu already repointed) has its registry reference at the target. -/
theorem menusFold_indexRef {C W : Type} (selfIdx : Nat) :
    ∀ (entries : List (Str × Nat)) (ms : List (SysMenu C W)) (v : Nat),
      v < ms.length →
      ((∃ k, (k, v) ∈ entries) ∨ (ms.getD v default).indexRef = selfIdx) →
      ((entries.foldl
        (fun ms e => ms.set e.2 { ms.getD e.2 default with indexRef := selfIdx })
        ms).getD v default).indexRef = selfIdx := by
  intro entries
  induction entries with
  | nil =>
    intro ms v _ hcase
    rcases hcase with ⟨k, hk⟩ | h
    · simp at hk
    · exact h
  | cons e es ih =>
    intro ms v hv hcase
    simp only [List.foldl_cons]
    by_cases hev : e.2 = v
    · refine ih _ v (by rw [List.length_set]; omega) (Or.inr ?_)
      subst hev
      rw [getD_set_self _ _ _ hv]
    · refine ih _ v (by rw [List.length_set]; omega) ?_
      rcases hcase with ⟨k, hk⟩ | h
      · rcases List.mem_cons.1 hk with h1 | h1
        · exact absurd (congrArg Prod.snd h1).symm hev
        · exact Or.inl ⟨k, h1⟩
      · refine Or.inr ?_
        rw [getD_set_ne _ _ _ _ hev]
        exact h

/-- `register` with one incoming menu, success case, unfolded: freeze both
menus, merge the incoming registry's entries into the target registry, then
set the incoming menu's parent. -/
theorem register_one_ok {C W : Type} (s : Sys C W) (selfR mr : Nat) (parent : Str)
    (hnone : regGet (s.regs.getD ((s.menuAt selfR).indexRef) [])
      ((s.menuAt mr).id) = none) :
    Sys.register s selfR [mr] parent = .ok (
      (((s.freezeMenu selfR).freezeMenu mr).regs.getD
          ((((s.freezeMenu selfR).freezeMenu mr).menuAt mr).indexRef) []).foldl
          (Sys.mergeEntry ((s.menuAt selfR).indexRef))
          ((s.freezeMenu selfR).freezeMenu mr) |>.setMenu mr
        { ((((s.freezeMenu selfR).freezeMenu mr).regs.getD
              ((((s.freezeMenu selfR).freezeMenu mr).menuAt mr).indexRef) []).foldl
              (Sys.mergeEntry ((s.menuAt selfR).indexRef))
              ((s.freezeMenu selfR).freezeMenu mr)).menuAt mr with
          parent := some parent }) := by
  unfold Sys.register
  simp only [List.find?, hnone, Option.isSome_none, List.foldl_cons, List.foldl_nil]

/-- C7 (amended): `register` rejects exactly when a top-level incoming
menu's identifier is already a key of the target registry — identifiers
inside the incoming menu's sub-registry are not part of the rejection check
— and on success merges every entry of the incoming registry into the
target registry (later entries overwriting clashing keys), repoints every
merged menu's registry reference to the target registry, leaves unmerged
keys untouched, and sets the incoming menu's parent. -/
theorem c7_register_spec {C W : Type} (s : Sys C W) (selfR mr : Nat) (parent : Str)
    (hreg : (s.menuAt selfR).indexRef < s.regs.length)
    (hmr : mr < s.menus.length)
    (hvals : ∀ e ∈ s.regs.getD ((s.menuAt mr).indexRef) [], e.2 < s.menus.length)
    (hnodup : ((s.regs.getD ((s.menuAt mr).indexRef) []).map Prod.fst).Nodup) :
    (∀ v, regGet (s.regs.getD ((s.menuAt selfR).indexRef) []) ((s.menuAt mr).id) = some v →
      Sys.register s selfR [mr] parent =
        .error (str "Menu '" ++ (s.menuAt mr).id ++ str "' already registered!")) ∧
    (regGet (s.regs.getD ((s.menuAt selfR).indexRef) []) ((s.menuAt mr).id) = none →
      ∃ s2, Sys.register s selfR [mr] parent = .ok s2 ∧
        (∀ k v, (k, v) ∈ s.regs.getD ((s.menuAt mr).indexRef) [] →
          regGet (s2.regs.getD ((s.menuAt selfR).indexRef) []) k = some v ∧
          (s2.menuAt v).indexRef = (s.menuAt selfR).indexRef) ∧
        (∀ k, k ∉ (s.regs.getD ((s.menuAt mr).indexRef) []).map Prod.fst →
          regGet (s2.regs.getD ((s.menuAt selfR).indexRef) []) k =
            regGet (s.regs.getD ((s.menuAt selfR).indexRef) []) k) ∧
        (s2.menuAt mr).parent = some parent) := by
  constructor
  · intro v hsome
    unfold Sys.register
    simp only [List.find?, hsome, Option.isSome_some]
  · intro hnone
    refine ⟨_, register_one_ok s selfR mr parent hnone, ?_⟩
    have hs3regs : ((s.freezeMenu selfR).freezeMenu mr).regs = s.regs := rfl
    have hs3idx : (((s.freezeMenu selfR).freezeMenu mr).menuAt mr).indexRef =
        (s.menuAt mr).indexRef := by
      rw [freezeMenu_indexRef, freezeMenu_indexRef]
    have hs3len : ((s.freezeMenu selfR).freezeMenu mr).menus.length = s.menus.length := by
      rw [freezeMenu_menus_length, freezeMenu_menus_length]
    have hentries : ((s.freezeMenu selfR).freezeMenu mr).regs.getD
        ((((s.freezeMenu selfR).freezeMenu mr).menuAt mr).indexRef) [] =
        s.regs.getD ((s.menuAt mr).indexRef) [] := by
      rw [hs3regs, hs3idx]
    rw [hentries]
    have hregs4 := mergeEntries_regs ((s.menuAt selfR).indexRef)
      (s.regs.getD ((s.menuAt mr).indexRef) []) ((s.freezeMenu selfR).freezeMenu mr)
      (by rw [hs3regs]; exact hreg)
    have hmenus4 := mergeEntries_menus ((s.menuAt selfR).indexRef)
      (s.regs.getD ((s.menuAt mr).indexRef) []) ((s.freezeMenu selfR).freezeMenu mr)
    have hlen4 : ((s.regs.getD ((s.menuAt mr).indexRef) []).foldl
        (Sys.mergeEntry ((s.menuAt selfR).indexRef))
        ((s.freezeMenu selfR).freezeMenu mr)).menus.length = s.menus.length := by
      rw [hmenus4, menusFold_length, hs3len]
    have hmr4 : mr < ((s.regs.getD ((s.menuAt mr).indexRef) []).foldl
        (Sys.mergeEntry ((s.menuAt selfR).indexRef))
        ((s.freezeMenu selfR).freezeMenu mr)).menus.length := by
      rw [hlen4]; exact hmr
    refine ⟨?_, ?_, ?_⟩
    · intro k v hmem
      constructor
      · show regGet (((_ : Sys C W).setMenu mr _).regs.getD _ []) k = some v
        rw [setMenu_regs]
        rw [hregs4.1, hs3regs]
        exact regFold_mem _ _ k v hnodup hmem
      · have hbase : ∀ hv : v < s.menus.length,
            ((((s.regs.getD ((s.menuAt mr).indexRef) []).foldl
              (Sys.mergeEntry ((s.menuAt selfR).indexRef))
              ((s.freezeMenu selfR).freezeMenu mr)).menus.getD v default).indexRef =
              (s.menuAt selfR).indexRef) := by
          intro hv
          rw [hmenus4]
          exact menusFold_indexRef _ _ _ v (by rw [hs3len]; exact hv)
            (Or.inl ⟨k, hmem⟩)
        by_cases hvmr : v = mr
        · subst hvmr
          rw [setMenu_menuAt_self _ _ _ hmr4]
          exact hbase hmr
        · rw [setMenu_menuAt_ne _ _ _ _ (fun hh => hvmr hh.symm)]
          exact hbase (hvals _ hmem)
    · intro k hk
      show regGet (((_ : Sys C W).setMenu mr _).regs.getD _ []) k = _
      rw [setMenu_regs, hregs4.1, hs3regs]
      exact regFold_not_mem _ _ k hk
    · rw [setMenu_menuAt_self _ _ _ hmr4]

/-- Four freshly constructed menus: `"root"`, a first `"b"`, `"a"`, and a
second `"b"`; each owns its one-entry registry, as `new Menu(id)` creates
it. -/
def c7Init : Sys Unit Unit :=
  { menus :=
      [{ id := str "root", ops := .nil, opts := defaultOpts, parent := none,
         indexRef := 0, frozen := false },
       { id := str "b", ops := .nil, opts := defaultOpts, parent := none,
         indexRef := 1, frozen := false },
       { id := str "a", ops := .nil, opts := defaultOpts, parent := none,
         indexRef := 2, frozen := false },
       { id := str "b", ops := .nil, opts := defaultOpts, parent := none,
         indexRef := 3, frozen := false }],
    regs := [[(str "root", 0)], [(str "b", 1)], [(str "a", 2)], [(str "b", 3)]] }

/-- The world after `root.register(bOld)`. -/
def c7Mid1 : Sys Unit Unit :=
  (Sys.register c7Init 0 [1] (str "root")).toOption.getD c7Init

/-- The world after additionally `a.register(bNew)`. -/
def c7Mid2 : Sys Unit Unit :=
  (Sys.register c7Mid1 2 [3] (str "a")).toOption.getD c7Init

/-- The world after finally `root.register(a)`. -/
def c7Post : Sys Unit Unit :=
  (Sys.register c7Mid2 0 [2] (str "root")).toOption.getD c7Init

/-- C7 fails as stated: after `root.register(bOld)` and `a.register(bNew)`,
the identifier `"b"` exists both in root's registry (bound to menu 1) and in
the sub-registry that `a` brings along (bound to menu 3); `root.register(a)`
nevertheless succeeds — the rejection check inspects only the top-level
incoming identifier `"a"` — and silently rebinds `"b"` in the target
registry to menu 3. -/
theorem c7_counterexample :
    (Sys.register c7Init 0 [1] (str "root")).isOk = true ∧
    (Sys.register c7Mid1 2 [3] (str "a")).isOk = true ∧
    regGet (c7Mid2.regs.getD ((c7Mid2.menuAt 0).indexRef) []) (str "b") = some 1 ∧
    regGet (c7Mid2.regs.getD ((c7Mid2.menuAt 2).indexRef) []) (str "b") = some 3 ∧
    (Sys.register c7Mid2 0 [2] (str "root")).isOk = true ∧
    regGet (c7Post.regs.getD ((c7Post.menuAt 0).indexRef) []) (str "b") = some 3 :=
  ⟨rfl, rfl, rfl, rfl, rfl, rfl⟩

theorem c7_register_spec_witness :
    (∀ v, regGet (c7Mid2.regs.getD ((c7Mid2.menuAt 0).indexRef) [])
        ((c7Mid2.menuAt 2).id) = some v →
      Sys.register c7Mid2 0 [2] (str "root") =
        .error (str "Menu '" ++ (c7Mid2.menuAt 2).id ++ str "' already registered!")) ∧
    (regGet (c7Mid2.regs.getD ((c7Mid2.menuAt 0).indexRef) [])
        ((c7Mid2.menuAt 2).id) = none →
      ∃ s2, Sys.register c7Mid2 0 [2] (str "root") = .ok s2 ∧
        (∀ k v, (k, v) ∈ c7Mid2.regs.getD ((c7Mid2.menuAt 2).indexRef) [] →
          regGet (s2.regs.getD ((c7Mid2.menuAt 0).indexRef) []) k = some v ∧
          (s2.menuAt v).indexRef = (c7Mid2.menuAt 0).indexRef) ∧
        (∀ k, k ∉ (c7Mid2.regs.getD ((c7Mid2.menuAt 2).indexRef) []).map Prod.fst →
          regGet (s2.regs.getD ((c7Mid2.menuAt 0).indexRef) []) k =
            regGet (c7Mid2.regs.getD ((c7Mid2.menuAt 0).indexRef) []) k) ∧
        (s2.menuAt 2).parent = some (str "root")) :=
  c7_register_spec c7Mid2 0 2 (str "root") (by decide) (by decide) (by decide) (by decide)

/-! ### C3: the 64-byte budget, checked against both implementations

The current implementation (`src/menu.ts`) contains no byte-budget check at
all: `MenuRange.text` merely appends an operation, and `Menu.render` checks
only that the payload is free of `'/'`.  The construction-time check exists
in the earlier implementation kept in the repository (part_000), whose
`Menu.text` computes `` `${this.id}/${row}/${col}` `` with decimal
coordinates and throws when its UTF-8 byte count exceeds 64. -/

/-- UTF-8 byte length of one code point (as `TextEncoder` counts it). -/
def utf8CpLen (c : Nat) : Nat :=
  if c < 0x80 then 1 else if c < 0x800 then 2 else if c < 0x10000 then 3 else 4

/-- `countBytes` of the earlier implementation:
`textEncoder.encode(str).length`. -/
def countBytes (s : Str) : Nat := (s.map utf8CpLen).sum

/-- A button of the earlier implementation: a label and, for text buttons,
the callback path. -/
structure Btn0 (C : Type) where
  text : C → Str
  callback_data : Option Str

/-- The earlier `Menu` class (part_000): a static two-dimensional button
array built row by row (starting from one empty row), plus the
`path → middleware` table. -/
structure Menu0 (C : Type) where
  id : Str
  buttons : List (List (Btn0 C))
  mw : List (Str × List Nat)

/-- `Map.set` for the `path → middleware` table. -/
def mwSet (t : List (Str × List Nat)) (k : Str) (v : List Nat) :
    List (Str × List Nat) :=
  match t with
  | [] => [(k, v)]
  | (k0, v0) :: rest => if k0 = k then (k, v) :: rest else (k0, v0) :: mwSet rest k v

/-- The earlier constructor: reject `'/'` in the identifier. -/
def mkMenu0 {C : Type} (id : Str) : Except Str (Menu0 C) :=
  if slashCp ∈ id then
    .error (str "You cannot use '/' in a menu identifier ('" ++ id ++ str "')")
  else .ok { id := id, buttons := [[]], mw := [] }

/-- The path the earlier `Menu.text` encodes for the next button:
`` `${this.id}/${row}/${col}` `` with `row = buttons.length - 1` and
`col = buttons[row].length`, in decimal. -/
def menu0Path {C : Type} (m : Menu0 C) : Str :=
  m.id ++ slashCp :: (toDec (m.buttons.length - 1) ++ slashCp ::
    toDec ((m.buttons.getD (m.buttons.length - 1) []).length))

/-- The error the earlier `Menu.text` throws when the path is too long. -/
def menu0Err {C : Type} (m : Menu0 C) : Str :=
  str "Button path '" ++ menu0Path m ++
    str "' would exceed payload size of 64 bytes! Please use a shorter menu identifier than " ++
    quoteStr m.id

/-- `add` of the earlier implementation: push onto the current (last) row
(`buttons` is never empty: it starts as `[[]]`). -/
def appendLastRow {C : Type} (bs : List (List (Btn0 C))) (b : Btn0 C) :
    List (List (Btn0 C)) :=
  bs.dropLast ++ [bs.getLastD [] ++ [b]]

/-- `Menu.text` of the earlier implementation: compute the path, fail when
its byte count exceeds 64, else record the middleware and add the button. -/
def Menu0.text {C : Type} (m : Menu0 C) (label : C → Str) (handlers : List Nat) :
    Except Str (Menu0 C) :=
  let path := menu0Path m
  if countBytes path > 64 then .error (menu0Err m)
  else .ok { m with
    mw := mwSet m.mw path handlers,
    buttons := appendLastRow m.buttons { text := label, callback_data := some path } }

/-- C3 (amended, proved against the earlier implementation): `Menu.text`
throws at construction exactly when the UTF-8 byte count of
`menuId/row/col` exceeds 64, and the error names the offending identifier. -/
theorem c3_byte_budget_construction {C : Type} (m : Menu0 C) (label : C → Str)
    (handlers : List Nat) :
    (Menu0.text m label handlers = .error (menu0Err m) ↔
      countBytes (menu0Path m) > 64) ∧
    containsSeg (quoteStr m.id) (menu0Err m) = true := by
  constructor
  · constructor
    · intro herr
      unfold Menu0.text at herr
      by_cases h : countBytes (menu0Path m) > 64
      · exact h
      · rw [if_neg h] at herr
        exact absurd herr (by simp)
    · intro h
      unfold Menu0.text
      rw [if_pos h]
  · have hform : menu0Err m =
        (str "Button path '" ++ menu0Path m ++
          str "' would exceed payload size of 64 bytes! Please use a shorter menu identifier than ") ++
          (quoteStr m.id ++ []) := by
      unfold menu0Err
      simp [List.append_assoc]
    rw [hform]
    exact containsSeg_append _ _ _

/-- The 70-character identifier of the C3 counterexample. -/
def c3LongId : Str := List.replicate 70 97

/-- `new Menu(longId).text("A", h)` in the current implementation. -/
def c3Menu : MenuDef Unit Unit :=
  { id := c3LongId, ops := Rng.nil.add [{ text := fun _ => str "A", kind := .cb [0] none }],
    opts := defaultOpts }

/-- C3 fails on the current code: with a 70-byte identifier, the constructor
accepts the identifier, adding the text button cannot throw (no byte check
exists), and rendering also succeeds, producing a callback token of more
than 64 UTF-8 bytes — the over-budget token is never rejected, neither at
construction nor at render. -/
theorem c3_counterexample :
    (mkMenuOpts c3LongId
      { autoAnswer := none, onMenuOutdated := none, fingerprint := none } :
        Except Str (MenuOpts Unit)).isOk = true ∧
    countBytes (encodeTokenPrefix c3LongId 0 0 []) > 64 ∧
    renderFull c3Menu () () = .ok
      [[.cb (encodeTokenPrefix c3LongId 0 0 [] ++ 104 :: tinyHash (1 :: 1 :: str "A"))
        (str "A")]] ∧
    countBytes (encodeTokenPrefix c3LongId 0 0 [] ++ 104 :: tinyHash (1 :: 1 :: str "A")) >
      64 :=
  ⟨rfl, by decide, rfl, by decide⟩

/-- A concrete `Menu0` with the same 70-byte identifier, to witness the
amended C3. -/
def c3Menu0 : Menu0 Unit := { id := c3LongId, buttons := [[]], mw := [] }

theorem c3_byte_budget_construction_witness :
    ((Menu0.text c3Menu0 (fun _ => str "A") [0] = .error (menu0Err c3Menu0) ↔
      countBytes (menu0Path c3Menu0) > 64) ∧
    containsSeg (quoteStr c3Menu0.id) (menu0Err c3Menu0) = true) ∧
    countBytes (menu0Path c3Menu0) > 64 ∧
    Menu0.text c3Menu0 (fun _ => str "A") [0] = .error (menu0Err c3Menu0) :=
  ⟨c3_byte_budget_construction c3Menu0 (fun _ => str "A") [0], by decide,
    ((c3_byte_budget_construction c3Menu0 (fun _ => str "A") [0]).1.2 (by decide))⟩
